import Mathlib

/-! Bitbucket Cloud pull-request discovery (`bitbucket_cloud.go`).

A shallow embedding of `applicationset/services/pull_request/bitbucket_cloud.go`
and of the library behaviour it relies on.

* The untyped provider result (`interface{}`) is the tree `GoValue`.
* `json.Marshal` maps a `GoValue` to the JSON text it prints, represented by
  its syntax tree `JSON`, with object members in the order they are printed
  (sorted by key).  A float64 that is an integer is printed as `strconv`
  prints it: digit for digit up to 2^53, and beyond with the shortest digits
  that read back as the same float64.  It fails on a non-finite float.
* `json.Unmarshal` into `[]BitbucketCloudPullRequest` is driven by a table of
  struct fields, as in `encoding/json`: an object key selects the field whose
  name it equals, else the field whose name it equals up to case folding; a
  key selecting no field is skipped; JSON `null` leaves the target untouched.
* A type error makes the decoding result `none`: `encoding/json` goes on
  decoding and returns the first such error at the end, and `List` discards
  what was decoded.
* Go's `(value, error)` results are pairs of options: `none` is `nil`.
* A Go `int` has 64 bits.
* The provider is a script `Provider.answer` indexed by the number of requests
  already served, so that the number of requests `List` issues is observable.
* `url.Parse` is a parameter `parse` of the constructors, and `urlParse` is a
  model of it.
-/

namespace BitbucketCloud

/-! ## Untyped values and JSON text -/

/-- A `float64` by its value: `int n` is the finite value `n`, an integer;
`nonInt` is a finite value that is not an integer; `nonFinite` is NaN or an
infinity.  A float64 holds every integer of magnitude up to 2^53 and, beyond,
only the multiples of a power of two that have a 53-bit mantissa. -/
inductive Float64 where
  | int (n : Int)
  | nonInt
  | nonFinite
  deriving DecidableEq

/-- What an `interface{}` returned by the provider client can hold: `nil`,
`bool`, `float64`, `string`, `[]interface{}` and `map[string]interface{}`.
A map is an association list in which the first binding of a key is the
binding of the map. -/
inductive GoValue where
  | null
  | bool (b : Bool)
  | float64 (x : Float64)
  | string (s : String)
  | slice (xs : List GoValue)
  | map (kvs : List (String × GoValue))

/-- The syntax tree of a JSON text: `int n` is a number written as the integer
numeral `n`, `nonInt` a number written with a fraction or an exponent, and
`object` lists the members in textual order. -/
inductive JSON where
  | null
  | bool (b : Bool)
  | int (n : Int)
  | nonInt
  | string (s : String)
  | array (xs : List JSON)
  | object (ms : List (String × JSON))

/-- Lookup of a key in a value that is a map (`m[key]`); nothing otherwise. -/
def GoValue.field (key : String) : GoValue → Option GoValue
  | .map kvs => kvs.lookup key
  | _ => none

/-- Puts member `k : j` at its place in a member list sorted by key (byte
order of the UTF-8 text, which is code point order); a member already there
under the same key is replaced. -/
def insertMember (k : String) (j : JSON) : List (String × JSON) → List (String × JSON)
  | [] => [(k, j)]
  | (k', j') :: ms =>
    if k.data < k'.data then (k, j) :: (k', j') :: ms
    else if k = k' then (k, j) :: ms
    else (k', j') :: insertMember k j ms

/-! ### How `json.Marshal` prints an integer-valued float64

The encoder prints a float64 of magnitude below 1e21 in positional format with
the shortest digits that read back as the same float64 (`strconv`, precision
-1), padded with zeros; from 1e21 on it uses an exponent. -/

/-- The search of `halfUlp`: the first `h * 2^i` with `a < h * 2^i * 2^54`. -/
def halfUlpFrom (a : Nat) : Nat → Nat → Nat
  | 0, h => h
  | f + 1, h => if a < h * 2 ^ 54 then h else halfUlpFrom a f (2 * h)

/-- Half the distance from a float64 of magnitude `a`, above 2^53, to the next
float64 above it. -/
def halfUlp (a : Nat) : Nat := halfUlpFrom a 17 1

/-- Half the distance from a float64 of magnitude `a`, above 2^53, to the next
float64 below it: below a power of two the floats are twice as dense. -/
def halfUlpBelow (a : Nat) : Nat :=
  if a = halfUlp a * 2 ^ 53 then halfUlp a / 2 else halfUlp a

/-- Whether the 53-bit mantissa of a float64 of magnitude `a`, above 2^53, is
even: a decimal half way to a neighbour then reads back as `a`. -/
def evenMantissa (a : Nat) : Bool := (a / (2 * halfUlp a)) % 2 == 0

/-- The numeral with all digits below `10^k` zero that reads back as `a`, if
there is one: a multiple of `10^k` next to `a` within the bounds `lower` and
`upper`, which count when `incl` holds; of two, the nearer one, and on a tie
the one whose last kept digit is even. -/
def roundAt (a lower upper : Nat) (incl : Bool) (k : Nat) : Option Nat :=
  let lo := a / 10 ^ k * 10 ^ k
  let hi := lo + 10 ^ k
  let okDown := decide (lower < lo) || (incl && lower == lo)
  let okUp := decide (hi < upper) || (incl && hi == upper)
  if lo = a then some a
  else if okDown && okUp then
    (if 2 * (a - lo) < 10 ^ k then some lo
     else if 10 ^ k < 2 * (a - lo) then some hi
     else if (lo / 10 ^ k) % 2 = 0 then some lo else some hi)
  else if okDown then some lo
  else if okUp then some hi
  else none

/-- The numeral with the most trailing zeros that reads back as `a`, trying
`10^k` downwards. -/
def shortestFrom (a lower upper : Nat) (incl : Bool) : Nat → Nat
  | 0 => a
  | k + 1 =>
    match roundAt a lower upper incl (k + 1) with
    | some r => r
    | none => shortestFrom a lower upper incl k

/-- The integer numeral printed for a float64 of magnitude `a`: up to 2^53
every digit is exact; beyond, it is the shortest numeral that reads back as
`a`. -/
def shortest (a : Nat) : Nat :=
  if a ≤ 2 ^ 53 then a
  else shortestFrom a (a - halfUlpBelow a) (a + halfUlp a) (evenMantissa a) 21

/-- The JSON number printed for the integer-valued float64 `n`. -/
def formatInteger (n : Int) : JSON :=
  if n.natAbs < 10 ^ 21 then
    .int (if n < 0 then -(shortest n.natAbs : Int) else (shortest n.natAbs : Int))
  else .nonInt

mutual
/-- The function `json.Marshal` on an untyped tree: map keys are printed in sorted order,
and a non-finite float anywhere in the tree is an error (`none`). -/
def Marshal : GoValue → Option JSON
  | .null => some .null
  | .bool b => some (.bool b)
  | .float64 (.int n) => some (formatInteger n)
  | .float64 .nonInt => some .nonInt
  | .float64 .nonFinite => none
  | .string s => some (.string s)
  | .slice xs => (marshalSlice xs).map .array
  | .map kvs => (marshalMap kvs).map .object
/-- The elements of a slice, encoded in order. -/
def marshalSlice : List GoValue → Option (List JSON)
  | [] => some []
  | x :: xs => (Marshal x).bind fun j => (marshalSlice xs).map fun js => j :: js
/-- The members of a map, encoded and sorted by key. -/
def marshalMap : List (String × GoValue) → Option (List (String × JSON))
  | [] => some []
  | (k, v) :: kvs => (Marshal v).bind fun j => (marshalMap kvs).map fun ms => insertMember k j ms
end

/-! ## Decoding into the provider-native record -/

/-- Case folding of one rune as `encoding/json` does it for key matching:
ASCII lower case letters go to upper case, and the two non-ASCII runes that
fold to ASCII letters, U+017F (long s) and U+212A (Kelvin sign), go to `S`
and `K`.  Every other rune folds to a non-ASCII rune and is kept as it is:
no field name below contains one. -/
def foldRune (c : Char) : Char :=
  if 97 ≤ c.toNat ∧ c.toNat ≤ 122 then Char.ofNat (c.toNat - 32)
  else if c.toNat = 0x17F then 'S'
  else if c.toNat = 0x212A then 'K'
  else c

/-- Case folding of a key (`foldName`). -/
def foldName (s : String) : String := String.mk (s.data.map foldRune)

/-- One struct field as the decoder sees it: its JSON name (the `json:"..."`
tag) and how a member value is stored into the struct. -/
structure Field (σ : Type) where
  name : String
  store : σ → JSON → Option σ

/-- The field an object key selects: the one with exactly that name, else the
first one with that name up to case folding. -/
def findField {σ : Type} (fields : List (Field σ)) (key : String) : Option (Field σ) :=
  match fields.find? (fun f => f.name == key) with
  | some f => some f
  | none => fields.find? (fun f => foldName f.name == foldName key)

/-- Decoding of the members of a JSON object into a struct, in textual order;
a later member selecting the same field is stored over the earlier one. -/
def decodeObject {σ : Type} (fields : List (Field σ)) (v : σ) : List (String × JSON) → Option σ
  | [] => some v
  | (key, x) :: ms =>
    match findField fields key with
    | some f => (f.store v x).bind fun v1 => decodeObject fields v1 ms
    | none => decodeObject fields v ms

/-- Decoding of a JSON value into a struct: `null` has no effect, an object is
decoded member by member, anything else is a type error. -/
def decodeStruct {σ : Type} (fields : List (Field σ)) (v : σ) : JSON → Option σ
  | .null => some v
  | .object ms => decodeObject fields v ms
  | _ => none

/-- Decoding into a Go `int` (64 bit): `null` has no effect; a number must be
an integer numeral within range. -/
def decodeInt (v : Int) : JSON → Option Int
  | .null => some v
  | .int n => if -2 ^ 63 ≤ n ∧ n < 2 ^ 63 then some n else none
  | _ => none

/-- Decoding into a Go `string`: `null` has no effect. -/
def decodeString (v : String) : JSON → Option String
  | .null => some v
  | .string s => some s
  | _ => none

/-- The provider-native record and its parts (lines 18-34). -/
structure BitbucketCloudPullRequestSourceBranch where
  Name : String
  deriving DecidableEq

structure BitbucketCloudPullRequestSourceCommit where
  Hash : String
  deriving DecidableEq

structure BitbucketCloudPullRequestSource where
  Branch : BitbucketCloudPullRequestSourceBranch
  Commit : BitbucketCloudPullRequestSourceCommit
  deriving DecidableEq

structure BitbucketCloudPullRequest where
  ID : Int
  Source : BitbucketCloudPullRequestSource
  deriving DecidableEq

/-- The zero value of `BitbucketCloudPullRequest`. -/
def BitbucketCloudPullRequest.zero : BitbucketCloudPullRequest :=
  ⟨0, ⟨⟨""⟩, ⟨""⟩⟩⟩

/-- Field `Name string` with tag `json:"name"`. -/
def nameField : Field BitbucketCloudPullRequestSourceBranch :=
  ⟨"name", fun v x => (decodeString v.Name x).map fun s => { v with Name := s }⟩

/-- Field `Hash string` with tag `json:"hash"`. -/
def hashField : Field BitbucketCloudPullRequestSourceCommit :=
  ⟨"hash", fun v x => (decodeString v.Hash x).map fun s => { v with Hash := s }⟩

def branchFields : List (Field BitbucketCloudPullRequestSourceBranch) := [nameField]

def commitFields : List (Field BitbucketCloudPullRequestSourceCommit) := [hashField]

/-- Field `Branch` with tag `json:"branch"`. -/
def branchField : Field BitbucketCloudPullRequestSource :=
  ⟨"branch", fun v x =>
    (decodeStruct branchFields v.Branch x).map fun b => { v with Branch := b }⟩

/-- Field `Commit` with tag `json:"commit"`. -/
def commitField : Field BitbucketCloudPullRequestSource :=
  ⟨"commit", fun v x =>
    (decodeStruct commitFields v.Commit x).map fun c => { v with Commit := c }⟩

def sourceFields : List (Field BitbucketCloudPullRequestSource) := [branchField, commitField]

/-- Field `ID int` with tag `json:"id"`. -/
def idField : Field BitbucketCloudPullRequest :=
  ⟨"id", fun v x => (decodeInt v.ID x).map fun n => { v with ID := n }⟩

/-- Field `Source` with tag `json:"source"`. -/
def sourceField : Field BitbucketCloudPullRequest :=
  ⟨"source", fun v x =>
    (decodeStruct sourceFields v.Source x).map fun s => { v with Source := s }⟩

def pullFields : List (Field BitbucketCloudPullRequest) := [idField, sourceField]

/-- The elements of a JSON array, each decoded into a fresh zero record. -/
def decodeArray : List JSON → Option (List BitbucketCloudPullRequest)
  | [] => some []
  | x :: xs =>
    (decodeStruct pullFields BitbucketCloudPullRequest.zero x).bind fun p =>
      (decodeArray xs).map fun ps => p :: ps

/-- The call `json.Unmarshal(jsonStr, &pulls)` with `pulls` a nil
`[]BitbucketCloudPullRequest`; `none` is a non-nil error. -/
def Unmarshal : JSON → Option (List BitbucketCloudPullRequest)
  | .null => some []
  | .array xs => decodeArray xs
  | _ => none

/-! ## The service -/

/-- Modelled from the spec: the normalized record `PullRequest` of the
package, declared outside this file: `Number`, `Branch`, `HeadSHA`. -/
structure PullRequest where
  Number : Int
  Branch : String
  HeadSHA : String
  deriving DecidableEq

/-- The parts of `url.URL` the client builds its request URLs from. -/
structure URL where
  Scheme : String
  Host : String
  Path : String
  deriving DecidableEq

/-- Credentials held by the provider client. -/
structure Auth where
  user : String
  password : String
  bearerToken : String
  deriving DecidableEq

/-- The provider client: credentials and API base URL (`none` until
`SetApiBaseURL`, standing for the library default). -/
structure Client where
  auth : Auth
  apiBaseURL : Option URL
  deriving DecidableEq

/-- The client constructor `bitbucket.NewBasicAuth(u, p)`. -/
def NewBasicAuth (u p : String) : Client := ⟨⟨u, p, ""⟩, none⟩

/-- The client constructor `bitbucket.NewOAuthbearerToken(t)`. -/
def NewOAuthbearerToken (t : String) : Client := ⟨⟨"", "", t⟩, none⟩

/-- The method `SetApiBaseURL` of the client. -/
def Client.SetApiBaseURL (c : Client) (urlStr : URL) : Client :=
  { c with apiBaseURL := some urlStr }

/-- The fields of `bitbucket.PullRequestsOptions` that `List` sets. -/
structure PullRequestsOptions where
  Owner : String
  RepoSlug : String
  deriving DecidableEq

/-- The provider behind the client: `answer k c opts` is the
`(interface{}, error)` pair it returns to the request number `k`. -/
structure Provider where
  served : Nat
  answer : Nat → Client → PullRequestsOptions → GoValue × Option String

/-- One call of `client.Repositories.PullRequests.Gets(opts)`. -/
def Gets (c : Client) (opts : PullRequestsOptions) (p : Provider) :
    (GoValue × Option String) × Provider :=
  (p.answer p.served c opts, { p with served := p.served + 1 })

/-- The service value: client, owner and repository slug (lines 12-16). -/
structure BitbucketCloudService where
  client : Client
  owner : String
  repositorySlug : String
  deriving DecidableEq

/-- A Go slice of normalized records. -/
abbrev PullRequests := List PullRequest

/-- The function `parseUrl` (lines 47-58); `parse` is `url.Parse`. -/
def parseUrl (parse : String → Except String URL) (uri : String) : Except String URL :=
  let uri := if uri = "" then "https://api.bitbucket.org/2.0" else uri
  match parse uri with
  | .error err => .error err
  | .ok url => .ok url

/-- The constructor with basic authentication (lines 60-74); the result is
the pair `(PullRequestService, error)`. -/
def NewBitbucketCloudServiceBasicAuth (parse : String → Except String URL)
    (username password baseUrl owner repositorySlug : String) :
    Option BitbucketCloudService × Option String :=
  match parseUrl parse baseUrl with
  | .error err =>
    (none, some ("error parsing base url of " ++ baseUrl ++ " for " ++ owner ++ "/" ++
      repositorySlug ++ ": " ++ err))
  | .ok url =>
    let bitbucketClient := (NewBasicAuth username password).SetApiBaseURL url
    (some { client := bitbucketClient, owner := owner, repositorySlug := repositorySlug }, none)

/-- The constructor without authentication (lines 76-91): an empty bearer
token stands for no credentials. -/
def NewBitbucketCloudServiceNoAuth (parse : String → Except String URL)
    (baseUrl owner repositorySlug : String) :
    Option BitbucketCloudService × Option String :=
  match parseUrl parse baseUrl with
  | .error err =>
    (none, some ("error parsing base url of " ++ baseUrl ++ " for " ++ owner ++ "/" ++
      repositorySlug ++ ": " ++ err))
  | .ok url =>
    let bitbucketClient := (NewOAuthbearerToken "").SetApiBaseURL url
    (some { client := bitbucketClient, owner := owner, repositorySlug := repositorySlug }, none)

/-- The method `List` (lines 93-134): the returned pair
`([]*PullRequest, error)` and the provider after the call. -/
def BitbucketCloudService.List (b : BitbucketCloudService) (p : Provider) :
    (Option PullRequests × Option String) × Provider :=
  let opts : PullRequestsOptions := { Owner := b.owner, RepoSlug := b.repositorySlug }
  match Gets b.client opts p with
  | ((_, some err), p1) =>
    ((none, some ("error listing pull requests for " ++ b.owner ++ "/" ++ b.repositorySlug ++
      ": " ++ err)), p1)
  | ((response, none), p1) =>
    match response with
    | .map resp =>
      match resp.lookup "values" with
      | some (.slice repoArray) =>
        match Marshal (.slice repoArray) with
        | none => ((none, some "Failed to convert response body to json"), p1)
        | some jsonStr =>
          match Unmarshal jsonStr with
          | none =>
            ((none, some "Failed to convert json to type '[]BitbucketCloudPullRequest'"), p1)
          | some pulls =>
            ((some (pulls.map fun pull =>
              { Number := pull.ID, Branch := pull.Source.Branch.Name,
                HeadSHA := pull.Source.Commit.Hash }), none), p1)
      | _ => ((none, some "Not a valid format"), p1)
    | _ => ((none, some "Not a valid format"), p1)

/-! ## The consumed fields of an entry -/

/-- The `id` of an entry of `values`. -/
def idOf (e : GoValue) : Option GoValue := e.field "id"

/-- The `source.branch.name` of an entry of `values`. -/
def branchNameOf (e : GoValue) : Option GoValue :=
  ((e.field "source").bind (GoValue.field "branch")).bind (GoValue.field "name")

/-- The `source.commit.hash` of an entry of `values`. -/
def commitHashOf (e : GoValue) : Option GoValue :=
  ((e.field "source").bind (GoValue.field "commit")).bind (GoValue.field "hash")

/-- A key that is a field name or selects no field at all. -/
def plainKey (names : List String) (k : String) : Bool :=
  names.contains k || names.all fun n => foldName n != foldName k

/-- A value a struct decodes from without a clash of keys: `null`, or a
mapping all of whose keys are plain for the given field names. -/
def plainMap (names : List String) : GoValue → Bool
  | .null => true
  | .map kvs => kvs.all fun kv => plainKey names kv.1
  | _ => false

/-- A test on a value that may be absent. -/
def absentOr (t : GoValue → Bool) : Option GoValue → Bool
  | none => true
  | some v => t v

/-- A `source` of the documented shape. -/
def plainSource (s : GoValue) : Bool :=
  plainMap ["branch", "commit"] s &&
    absentOr (plainMap ["name"]) (s.field "branch") &&
    absentOr (plainMap ["hash"]) (s.field "commit")

/-- An entry of the documented shape: a mapping whose `source`, and the
`branch` and `commit` of it, are mappings where present, and in which no key
other than a field name matches a field name up to case folding. -/
def plainEntry (e : GoValue) : Bool :=
  plainMap ["id", "source"] e && absentOr plainSource (e.field "source")

/-- What decoding leaves in an `int` field holding `old`, by the member value. -/
def intLeaf (old : Int) : Option GoValue → Option Int
  | none => some old
  | some .null => some old
  | some (.float64 (.int n)) => decodeInt old (formatInteger n)
  | some _ => none

/-- What decoding leaves in a `string` field holding `old`, by the member value. -/
def stringLeaf (old : String) : Option GoValue → Option String
  | none => some old
  | some .null => some old
  | some (.string s) => some s
  | some _ => none

/-- The record an entry of the documented shape decodes into, by its three
consumed fields; `none` when one of them has a value of the wrong type. -/
def entryRecord (e : GoValue) : Option BitbucketCloudPullRequest :=
  (intLeaf 0 (idOf e)).bind fun n =>
    (stringLeaf "" (branchNameOf e)).bind fun b =>
      (stringLeaf "" (commitHashOf e)).map fun h => ⟨n, ⟨⟨b⟩, ⟨h⟩⟩⟩

/-- The records of a sequence of entries, when every entry has one. -/
def entryRecords : List GoValue → Option (List BitbucketCloudPullRequest)
  | [] => some []
  | e :: es => (entryRecord e).bind fun r => (entryRecords es).map fun rs => r :: rs

/-- The normalized record built from a decoded one (the loop body of `List`). -/
def normalize (pull : BitbucketCloudPullRequest) : PullRequest :=
  { Number := pull.ID, Branch := pull.Source.Branch.Name, HeadSHA := pull.Source.Commit.Hash }

/-- An entry of the documented shape that `json.Marshal` can encode. -/
def Consumable (e : GoValue) : Prop :=
  plainEntry e = true ∧ (Marshal e).isSome = true

/-- An entry well formed for the record `r`: consumable, with an `id` that is
an integer of magnitude at most 2^53, the range in which a float64 holds every
integer, and string `source.branch.name` and `source.commit.hash`, which are
the fields of `r`. -/
def WellFormedFor (e : GoValue) (r : PullRequest) : Prop :=
  Consumable e ∧
  idOf e = some (.float64 (.int r.Number)) ∧ -2 ^ 53 ≤ r.Number ∧ r.Number ≤ 2 ^ 53 ∧
  branchNameOf e = some (.string r.Branch) ∧ commitHashOf e = some (.string r.HeadSHA)

/-- Agreement of two entries on the three consumed fields. -/
def Agree (a c : GoValue) : Prop :=
  idOf a = idOf c ∧ branchNameOf a = branchNameOf c ∧ commitHashOf a = commitHashOf c

/-- A value an `int` field rejects: anything but `null` and an integer within
the range of a Go `int`. -/
def rejectedAsInt : GoValue → Bool
  | .null => false
  | .float64 (.int n) => !decide (-2 ^ 63 ≤ n ∧ n < 2 ^ 63)
  | _ => true

/-- A value a `string` field rejects: anything but `null` and a string. -/
def rejectedAsString : GoValue → Bool
  | .null => false
  | .string _ => false
  | _ => true

/-- A value of a non-numeric type other than `null`: string, boolean, mapping
or sequence. -/
def nonNumeric : GoValue → Bool
  | .string _ => true
  | .bool _ => true
  | .slice _ => true
  | .map _ => true
  | _ => false

/-- Strict order of two object members by key. -/
def keyLt (a b : String × JSON) : Prop := a.1.data < b.1.data

/-- Storing an optional member value into a field. -/
def optStore {σ : Type} (f : Field σ) (o : Option JSON) (v : σ) : Option σ :=
  match o with
  | none => some v
  | some x => f.store v x

/-! ## The failure points of `List` -/

/-- The four checks of `List` on a provider result, in the order it makes
them. -/
inductive FailurePoint where
  | mapping
  | values
  | reencoding
  | decoding
  deriving DecidableEq

/-- The check of `List` a provider result fails, if any. -/
def failurePoint : GoValue → Option FailurePoint
  | .map resp =>
    match resp.lookup "values" with
    | some (.slice repoArray) =>
      match Marshal (.slice repoArray) with
      | none => some .reencoding
      | some jsonStr =>
        match Unmarshal jsonStr with
        | none => some .decoding
        | some _ => none
    | _ => some .values
  | _ => some .mapping

/-- The message of the error `List` returns at each failure point. -/
def failureMessage : FailurePoint → String
  | .mapping => "Not a valid format"
  | .values => "Not a valid format"
  | .reencoding => "Failed to convert response body to json"
  | .decoding => "Failed to convert json to type '[]BitbucketCloudPullRequest'"

/-! ## The URL parser

A model of `url.Parse` of `net/url`, working on the bytes of the text as the
library does.  The result is cut down to the scheme, host and path of
`url.URL`, which are what the client builds its requests from; the address
inside a bracketed host is not checked. -/

/-- A Go string: its bytes. -/
abbrev Bytes := List Nat

/-- The UTF-8 encoding of a character. -/
def utf8Encode (c : Char) : Bytes :=
  let n := c.toNat
  if n < 0x80 then [n]
  else if n < 0x800 then [0xC0 + n / 64, 0x80 + n % 64]
  else if n < 0x10000 then [0xE0 + n / 4096, 0x80 + n / 64 % 64, 0x80 + n % 64]
  else [0xF0 + n / 262144, 0x80 + n / 4096 % 64, 0x80 + n / 64 % 64, 0x80 + n % 64]

/-- The bytes of a text. -/
def toBytes (s : String) : Bytes := (s.data.map utf8Encode).flatten

/-- A continuation byte of UTF-8 within the given range. -/
def contIn (lo hi b : Nat) : Bool := lo ≤ b && b ≤ hi

/-- The rune at the head of a byte string and its width, when the head is a
valid UTF-8 encoding (`utf8.DecodeRune`). -/
def decodeRune : Bytes → Option (Nat × Nat)
  | [] => none
  | b0 :: rest =>
    if b0 < 0x80 then some (b0, 1)
    else if 0xC2 ≤ b0 ∧ b0 ≤ 0xDF then
      match rest with
      | b1 :: _ => if contIn 0x80 0xBF b1 then some ((b0 - 0xC0) * 64 + (b1 - 0x80), 2) else none
      | _ => none
    else if 0xE0 ≤ b0 ∧ b0 ≤ 0xEF then
      match rest with
      | b1 :: b2 :: _ =>
        if contIn (if b0 = 0xE0 then 0xA0 else 0x80) (if b0 = 0xED then 0x9F else 0xBF) b1
            && contIn 0x80 0xBF b2 then
          some ((b0 - 0xE0) * 4096 + (b1 - 0x80) * 64 + (b2 - 0x80), 3)
        else none
      | _ => none
    else if 0xF0 ≤ b0 ∧ b0 ≤ 0xF4 then
      match rest with
      | b1 :: b2 :: b3 :: _ =>
        if contIn (if b0 = 0xF0 then 0x90 else 0x80) (if b0 = 0xF4 then 0x8F else 0xBF) b1
            && contIn 0x80 0xBF b2 && contIn 0x80 0xBF b3 then
          some ((b0 - 0xF0) * 262144 + (b1 - 0x80) * 4096 + (b2 - 0x80) * 64 + (b3 - 0x80), 4)
        else none
      | _ => none
    else none

/-- The runes of a byte string, an invalid byte reading as U+FFFD. -/
def runesOf : Nat → Bytes → List Char
  | 0, _ => []
  | _ + 1, [] => []
  | f + 1, b :: rest =>
    match decodeRune (b :: rest) with
    | some (r, w) => Char.ofNat r :: runesOf f ((b :: rest).drop w)
    | none => Char.ofNat 0xFFFD :: runesOf f rest

/-- The text of a byte string. -/
def ofBytes (s : Bytes) : String := String.mk (runesOf s.length s)

/-- A lower case hexadecimal digit. -/
def lowerHex (n : Nat) : Nat := if n < 10 then 48 + n else 87 + n

/-- One rune as `strconv.Quote` writes it; a rune beyond ASCII is taken to be
printable. -/
def quotedRune (r : Nat) (enc : Bytes) : Bytes :=
  if r = 34 ∨ r = 92 then [92, r]
  else if 0x20 ≤ r ∧ r ≠ 0x7F then enc
  else if r = 7 then [92, 97]
  else if r = 8 then [92, 98]
  else if r = 12 then [92, 102]
  else if r = 10 then [92, 110]
  else if r = 13 then [92, 114]
  else if r = 9 then [92, 116]
  else if r = 11 then [92, 118]
  else [92, 120, lowerHex (r / 16), lowerHex (r % 16)]

/-- The body of a quoted string. -/
def quotedFrom : Nat → Bytes → Bytes
  | 0, _ => []
  | _ + 1, [] => []
  | f + 1, b :: rest =>
    match decodeRune (b :: rest) with
    | some (r, w) => quotedRune r ((b :: rest).take w) ++ quotedFrom f ((b :: rest).drop w)
    | none => [92, 120, lowerHex (b / 16), lowerHex (b % 16)] ++ quotedFrom f rest

/-- The function `strconv.Quote`, which the verb `%q` applies. -/
def quote (s : Bytes) : Bytes := [34] ++ quotedFrom s.length s ++ [34]

/-- The index of the first byte `c` in `s`. -/
def indexByte (c : Nat) : Bytes → Option Nat
  | [] => none
  | b :: rest => if b = c then some 0 else (indexByte c rest).map (· + 1)

/-- The index of the last byte `c` in `s`. -/
def lastIndexByte (c : Nat) : Bytes → Option Nat
  | [] => none
  | b :: rest =>
    match lastIndexByte c rest with
    | some i => some (i + 1)
    | none => if b = c then some 0 else none

/-- The index of the first occurrence of `pat` in `s`. -/
def indexSub (pat : Bytes) : Bytes → Option Nat
  | [] => if pat = [] then some 0 else none
  | b :: rest =>
    if pat.isPrefixOf (b :: rest) then some 0 else (indexSub pat rest).map (· + 1)

/-- The function `strings.Cut` with a separator of one byte. -/
def cut (c : Nat) (s : Bytes) : Bytes × Bytes :=
  match indexByte c s with
  | some i => (s.take i, s.drop (i + 1))
  | none => (s, [])

/-- An ASCII letter. -/
def isLetter (c : Nat) : Bool := (97 ≤ c && c ≤ 122) || (65 ≤ c && c ≤ 90)

/-- An ASCII digit. -/
def isDigit (c : Nat) : Bool := 48 ≤ c && c ≤ 57

/-- The function `ishex`. -/
def isHexDigit (c : Nat) : Bool := isDigit c || (97 ≤ c && c ≤ 102) || (65 ≤ c && c ≤ 70)

/-- The function `unhex`. -/
def unhex (c : Nat) : Nat :=
  if isDigit c then c - 48 else if 97 ≤ c ∧ c ≤ 102 then c - 97 + 10 else c - 65 + 10

/-- The escaping modes `url.Parse` uses. -/
inductive Encoding where
  | path
  | host
  | zone
  | userPassword
  | fragment
  deriving DecidableEq

/-- The function `shouldEscape` in the mode `encodeHost`. -/
def shouldEscapeHost (c : Nat) : Bool :=
  !(isLetter c || isDigit c ||
    [33, 36, 38, 39, 40, 41, 42, 43, 44, 59, 61, 58, 91, 93, 60, 62, 34].contains c ||
    [45, 95, 46, 126].contains c)

/-- The check `unescape` makes before it decodes; an error is the offending
text, as an escape error (`true`) or an invalid host error. -/
def unescapeCheck (mode : Encoding) : Bytes → Option (Bool × Bytes)
  | [] => none
  | c :: rest =>
    if c = 37 then
      match rest with
      | h1 :: h2 :: rest2 =>
        if !(isHexDigit h1 && isHexDigit h2) then some (true, (c :: rest).take 3)
        else if mode = .host ∧ unhex h1 < 8 ∧ [c, h1, h2] ≠ [37, 50, 53] then
          some (true, [c, h1, h2])
        else if mode = .zone ∧ [c, h1, h2] ≠ [37, 50, 53] ∧ unhex h1 * 16 + unhex h2 ≠ 32 ∧
            shouldEscapeHost (unhex h1 * 16 + unhex h2) then
          some (true, [c, h1, h2])
        else unescapeCheck mode rest2
      | _ => some (true, (c :: rest).take 3)
    else if (mode = .host ∨ mode = .zone) ∧ c < 0x80 ∧ shouldEscapeHost c then
      some (false, [c])
    else unescapeCheck mode rest

/-- The decoding pass of `unescape` on a checked text. -/
def unescapeDecode : Bytes → Bytes
  | [] => []
  | c :: rest =>
    if c = 37 then
      match rest with
      | h1 :: h2 :: rest2 => (unhex h1 * 16 + unhex h2) :: unescapeDecode rest2
      | _ => c :: rest
    else c :: unescapeDecode rest

/-- The function `unescape`: the decoded text, or the reason of the error. -/
def unescape (s : Bytes) (mode : Encoding) : Except Bytes Bytes :=
  match unescapeCheck mode s with
  | some (true, bad) => .error (toBytes "invalid URL escape " ++ quote bad)
  | some (false, bad) => .error (toBytes "invalid character " ++ quote bad ++ toBytes " in host name")
  | none => .ok (unescapeDecode s)

/-- The loop of `getScheme` at byte `i`: scheme and rest. -/
def getSchemeFrom (rawURL : Bytes) (i : Nat) : Bytes → Except Bytes (Bytes × Bytes)
  | [] => .ok ([], rawURL)
  | c :: rest =>
    if isLetter c then getSchemeFrom rawURL (i + 1) rest
    else if isDigit c ∨ c = 43 ∨ c = 45 ∨ c = 46 then
      if i = 0 then .ok ([], rawURL) else getSchemeFrom rawURL (i + 1) rest
    else if c = 58 then
      if i = 0 then .error (toBytes "missing protocol scheme") else .ok (rawURL.take i, rest)
    else .ok ([], rawURL)

/-- The function `getScheme` on the whole text. -/
def getScheme (rawURL : Bytes) : Except Bytes (Bytes × Bytes) := getSchemeFrom rawURL 0 rawURL

/-- The function `validOptionalPort`. -/
def validOptionalPort : Bytes → Bool
  | [] => true
  | c :: rest => c = 58 && rest.all isDigit

/-- The function `validUserinfo`. -/
def validUserinfo (s : Bytes) : Bool :=
  s.all fun c => isLetter c || isDigit c ||
    [45, 46, 95, 58, 126, 33, 36, 38, 39, 40, 41, 42, 43, 44, 59, 61, 37, 64].contains c

/-- The function `parseHost`. -/
def parseHost (host : Bytes) : Except Bytes Bytes :=
  if host.head? = some 91 then
    match lastIndexByte 93 host with
    | none => .error (toBytes "missing ']' in host")
    | some i =>
      let colonPort := host.drop (i + 1)
      if !validOptionalPort colonPort then
        .error (toBytes "invalid port " ++ quote colonPort ++ toBytes " after host")
      else
        match indexSub [37, 50, 53] (host.take i) with
        | some zone =>
          match unescape (host.take zone) .host with
          | .error e => .error e
          | .ok host1 =>
            match unescape ((host.take i).drop zone) .zone with
            | .error e => .error e
            | .ok host2 =>
              match unescape (host.drop i) .host with
              | .error e => .error e
              | .ok host3 => .ok (host1 ++ host2 ++ host3)
        | none => unescape host .host
  else
    match lastIndexByte 58 host with
    | some i =>
      if !validOptionalPort (host.drop i) then
        .error (toBytes "invalid port " ++ quote (host.drop i) ++ toBytes " after host")
      else unescape host .host
    | none => unescape host .host

/-- The function `parseAuthority`, for its host and its errors. -/
def parseAuthority (authority : Bytes) : Except Bytes Bytes :=
  match lastIndexByte 64 authority with
  | none => parseHost authority
  | some i =>
    match parseHost (authority.drop (i + 1)) with
    | .error e => .error e
    | .ok host =>
      let userinfo := authority.take i
      if !validUserinfo userinfo then .error (toBytes "net/url: invalid userinfo")
      else if !userinfo.contains 58 then
        match unescape userinfo .userPassword with
        | .error e => .error e
        | .ok _ => .ok host
      else
        match unescape (cut 58 userinfo).1 .userPassword with
        | .error e => .error e
        | .ok _ =>
          match unescape (cut 58 userinfo).2 .userPassword with
          | .error e => .error e
          | .ok _ => .ok host

/-- Lower case of ASCII letters (`strings.ToLower` on a scheme). -/
def toLower (s : Bytes) : Bytes := s.map fun c => if 65 ≤ c ∧ c ≤ 90 then c + 32 else c

/-- The function `parse` of `net/url` (not via a request) on a text without
fragment: scheme, host and path as bytes, or the reason of the error. -/
def parseNoFragment (rawURL : Bytes) : Except Bytes (Bytes × Bytes × Bytes) :=
  if rawURL.any (fun b => b < 0x20 || b == 0x7F) then
    .error (toBytes "net/url: invalid control character in URL")
  else if rawURL = [42] then .ok ([], [], [42])
  else
    match getScheme rawURL with
    | .error e => .error e
    | .ok (scheme0, rest0) =>
      let scheme := toLower scheme0
      let rest :=
        if rest0.getLast? = some 63 ∧ rest0.count 63 = 1 then rest0.dropLast
        else (cut 63 rest0).1
      if rest.head? ≠ some 47 ∧ scheme ≠ [] then .ok (scheme, [], [])
      else if rest.head? ≠ some 47 ∧ (cut 47 rest).1.contains 58 then
        .error (toBytes "first path segment in URL cannot contain colon")
      else if (scheme ≠ [] ∨ ¬ [47, 47, 47].isPrefixOf rest) ∧ [47, 47].isPrefixOf rest then
        let authority0 := rest.drop 2
        let authority := match indexByte 47 authority0 with
          | some i => authority0.take i
          | none => authority0
        let rest1 := match indexByte 47 authority0 with
          | some i => authority0.drop i
          | none => []
        match parseAuthority authority with
        | .error e => .error e
        | .ok host =>
          match unescape rest1 .path with
          | .error e => .error e
          | .ok path => .ok (scheme, host, path)
      else
        match unescape rest .path with
        | .error e => .error e
        | .ok path => .ok (scheme, [], path)

/-- The function `url.Parse`, with the result cut down to scheme, host and
path; an error carries the text of `url.Error`. -/
def urlParse (rawURL : String) : Except String URL :=
  let raw := toBytes rawURL
  let u := (cut 35 raw).1
  let frag := (cut 35 raw).2
  match parseNoFragment u with
  | .error e => .error (ofBytes (toBytes "parse " ++ quote u ++ toBytes ": " ++ e))
  | .ok (scheme, host, path) =>
    match unescape frag .fragment with
    | .error e => .error (ofBytes (toBytes "parse " ++ quote raw ++ toBytes ": " ++ e))
    | .ok _ => .ok ⟨ofBytes scheme, ofBytes host, ofBytes path⟩

/-! ## Sample inputs -/

/-- A service for owner `acme` and repository `widgets`. -/
def acmeWidgets : BitbucketCloudService :=
  { client := (NewBasicAuth "user" "secret").SetApiBaseURL ⟨"https", "api.bitbucket.org", "/2.0"⟩,
    owner := "acme", repositorySlug := "widgets" }

/-- A provider that answers every request with `response` and no error. -/
def answering (response : GoValue) : Provider :=
  ⟨0, fun _ _ _ => (response, none)⟩

/-- A provider whose first answer is the error `err` and whose later answers
are `response`. -/
def failingOnce (err : String) (response : GoValue) : Provider :=
  ⟨0, fun k _ _ => if k = 0 then (.null, some err) else (response, none)⟩

/-- An entry `{"id": id, "source": {"branch": {"name": branch}, "commit": {"hash": hash}}}`. -/
def pullEntry (id : GoValue) (branch hash : String) : GoValue :=
  .map [("id", id),
    ("source", .map [("branch", .map [("name", .string branch)]),
      ("commit", .map [("hash", .string hash)])])]

/-- The `source` mapping of `pullEntry`. -/
def sourceOf (branch hash : String) : GoValue :=
  .map [("branch", .map [("name", .string branch)]), ("commit", .map [("hash", .string hash)])]

/-- A response envelope with the given `values` and no other key. -/
def envelope (values : List GoValue) : GoValue :=
  .map [("values", .slice values)]

/-- A stand-in for `url.Parse` on which statements about the constructors are
instantiated: a text with an ASCII control character is rejected, as by
`url.Parse`; any other text is taken whole as the path. -/
def sampleParse (rawURL : String) : Except String URL :=
  if rawURL.data.any (fun c => c.toNat < 32 || c.toNat == 127) then
    .error "net/url: invalid control character in URL"
  else .ok ⟨"", "", rawURL⟩

/-- An entry whose `id` is the float64 2^63 - 1024, the largest one within
the range of a Go `int`. -/
def nearMaxIdEntry : GoValue :=
  pullEntry (.float64 (.int 9223372036854774784)) "feature/x" "abc123"

/-- An entry whose `id` is the float64 2^54 + 24. -/
def roundedIdEntry : GoValue :=
  pullEntry (.float64 (.int 18014398509482008)) "feature/x" "abc123"

/-- An entry whose `id` is the float64 -2^63, the least value of a Go `int`. -/
def minIdEntry : GoValue :=
  pullEntry (.float64 (.int (-9223372036854775808))) "feature/x" "abc123"

/-- An entry whose integer `id` is beyond the range of a Go `int`. -/
def bigIdEntry : GoValue :=
  pullEntry (.float64 (.int 10000000000000000000)) "feature/x" "abc123"

/-- An entry with a second key `ID`, which matches the field `id` up to case. -/
def aliasEntry : GoValue :=
  .map [("ID", .string "forty-two"), ("id", .float64 (.int 42)),
    ("source", sourceOf "feature/x" "abc123")]

/-- An entry with a key `score` holding a NaN. -/
def nanEntry : GoValue :=
  .map [("id", .float64 (.int 42)), ("score", .float64 .nonFinite),
    ("source", sourceOf "feature/x" "abc123")]

/-- An entry without `id`. -/
def noIdEntry : GoValue :=
  .map [("source", sourceOf "feature/x" "abc123")]

/-- An entry whose `id` is `null` and whose `source.commit.hash` is present. -/
def nullIdEntry : GoValue :=
  .map [("id", .null), ("source", .map [("commit", .map [("hash", .string "abc123")])])]

/-- A full page as the provider sends it: paging keys around `values`, and an
entry that carries a title, a state and a repository besides the consumed
fields. -/
def fullPage : GoValue :=
  .map [("pagelen", .float64 (.int 10)), ("size", .float64 (.int 1)),
    ("page", .float64 (.int 1)), ("next", .string "https://api.bitbucket.org/2.0/next"),
    ("values", .slice [.map [("title", .string "Add x"), ("state", .string "OPEN"),
      ("id", .float64 (.int 42)),
      ("source", .map [("repository", .map [("full_name", .string "acme/widgets")]),
        ("commit", .map [("hash", .string "abc123"), ("type", .string "commit")]),
        ("branch", .map [("name", .string "feature/x")])])]])]

/-! ## Encoding and decoding lemmas -/

theorem halfUlpFrom_spec (a : Nat) : ∀ f h, h * 2 ^ 53 ≤ a →
    halfUlpFrom a f h * 2 ^ 53 ≤ a ∧
    (a < halfUlpFrom a f h * 2 ^ 54 ∨ halfUlpFrom a f h = h * 2 ^ f) ∧
    ∃ i, i ≤ f ∧ halfUlpFrom a f h = h * 2 ^ i := by
  intro f
  induction f with
  | zero =>
    intro h hh
    exact ⟨hh, Or.inr (by simp [halfUlpFrom]), 0, le_refl _, by simp [halfUlpFrom]⟩
  | succ f ih =>
    intro h hh
    unfold halfUlpFrom
    by_cases hlt : a < h * 2 ^ 54
    · rw [if_pos hlt]
      exact ⟨hh, Or.inl hlt, 0, Nat.zero_le _, by simp⟩
    · rw [if_neg hlt]
      have h2 : 2 * h * 2 ^ 53 ≤ a := by omega
      obtain ⟨h3, h4, i, hi, h5⟩ := ih (2 * h) h2
      refine ⟨h3, ?_, i + 1, by omega, ?_⟩
      · rcases h4 with h4 | h4
        · exact Or.inl h4
        · right; rw [h4, pow_succ]; ring
      · rw [h5, pow_succ]; ring

theorem halfUlp_le (a : Nat) (h : 2 ^ 53 < a) : halfUlp a * 2 ^ 53 ≤ a :=
  (halfUlpFrom_spec a 17 1 (by omega)).1

theorem halfUlp_63 (a : Nat) (h1 : 2 ^ 63 ≤ a) (h2 : a < 2 ^ 64) : halfUlp a = 1024 := by
  obtain ⟨h3, h4, i, hi, h5⟩ := halfUlpFrom_spec a 17 1 (by omega)
  unfold halfUlp
  rw [h5] at h3 h4 ⊢
  interval_cases i <;> simp at h3 h4 ⊢ <;> omega

theorem halfUlpBelow_le (a : Nat) : halfUlpBelow a ≤ halfUlp a := by
  unfold halfUlpBelow
  split
  · exact Nat.div_le_self _ _
  · exact le_refl _

theorem roundAt_cases {a lower upper : Nat} {incl : Bool} {k r : Nat}
    (h : roundAt a lower upper incl k = some r) :
    r = a ∨ r = a / 10 ^ k * 10 ^ k + 10 ^ k ∨
      (r = a / 10 ^ k * 10 ^ k ∧ lower ≤ r ∧
        (upper ≤ a / 10 ^ k * 10 ^ k + 10 ^ k ∨ 2 * (a - r) ≤ 10 ^ k)) := by
  unfold roundAt at h
  simp only at h
  by_cases h1 : a / 10 ^ k * 10 ^ k = a
  · rw [if_pos h1] at h
    exact Or.inl (Option.some.inj h).symm
  · rw [if_neg h1] at h
    have hdown : ∀ {x : Nat}, (decide (lower < x) || (incl && lower == x)) = true →
        lower ≤ x := by
      intro x hx
      simp only [Bool.or_eq_true, decide_eq_true_eq, Bool.and_eq_true, beq_iff_eq] at hx
      rcases hx with hx | hx
      · exact le_of_lt hx
      · exact le_of_eq hx.2
    have hup : ∀ {x : Nat}, ¬ (decide (x < upper) || (incl && x == upper)) = true →
        upper ≤ x := by
      intro x hx
      simp only [Bool.or_eq_true, decide_eq_true_eq, Bool.and_eq_true, beq_iff_eq,
        not_or] at hx
      exact Nat.le_of_not_lt hx.1
    by_cases h2 : ((decide (lower < a / 10 ^ k * 10 ^ k) ||
        (incl && lower == a / 10 ^ k * 10 ^ k)) &&
        (decide (a / 10 ^ k * 10 ^ k + 10 ^ k < upper) ||
        (incl && a / 10 ^ k * 10 ^ k + 10 ^ k == upper))) = true
    · rw [if_pos h2] at h
      rw [Bool.and_eq_true] at h2
      by_cases h3 : 2 * (a - a / 10 ^ k * 10 ^ k) < 10 ^ k
      · rw [if_pos h3] at h
        have hr := (Option.some.inj h).symm
        subst hr
        exact Or.inr (Or.inr ⟨rfl, hdown h2.1, Or.inr (le_of_lt h3)⟩)
      · rw [if_neg h3] at h
        by_cases h4 : 10 ^ k < 2 * (a - a / 10 ^ k * 10 ^ k)
        · rw [if_pos h4] at h
          exact Or.inr (Or.inl (Option.some.inj h).symm)
        · rw [if_neg h4] at h
          by_cases h5 : a / 10 ^ k * 10 ^ k / 10 ^ k % 2 = 0
          · rw [if_pos h5] at h
            have hr := (Option.some.inj h).symm
            subst hr
            exact Or.inr (Or.inr ⟨rfl, hdown h2.1, Or.inr (Nat.le_of_not_lt h4)⟩)
          · rw [if_neg h5] at h
            exact Or.inr (Or.inl (Option.some.inj h).symm)
    · rw [if_neg h2] at h
      by_cases h6 : (decide (lower < a / 10 ^ k * 10 ^ k) ||
          (incl && lower == a / 10 ^ k * 10 ^ k)) = true
      · rw [if_pos h6] at h
        have hr := (Option.some.inj h).symm
        subst hr
        refine Or.inr (Or.inr ⟨rfl, hdown h6, Or.inl (hup ?_)⟩)
        intro h7
        exact h2 (by rw [Bool.and_eq_true]; exact ⟨h6, h7⟩)
      · rw [if_neg h6] at h
        by_cases h7 : (decide (a / 10 ^ k * 10 ^ k + 10 ^ k < upper) ||
            (incl && a / 10 ^ k * 10 ^ k + 10 ^ k == upper)) = true
        · rw [if_pos h7] at h
          exact Or.inr (Or.inl (Option.some.inj h).symm)
        · rw [if_neg h7] at h
          cases h

theorem roundAt_isSome {a lower upper : Nat} {incl : Bool} {k : Nat}
    (h : a / 10 ^ k * 10 ^ k + 10 ^ k < upper) : roundAt a lower upper incl k ≠ none := by
  unfold roundAt
  simp only
  have hup : (decide (a / 10 ^ k * 10 ^ k + 10 ^ k < upper) ||
      (incl && a / 10 ^ k * 10 ^ k + 10 ^ k == upper)) = true := by simp [h]
  split_ifs <;> simp_all

theorem shortestFrom_cases (a lower upper : Nat) (incl : Bool) : ∀ K,
    shortestFrom a lower upper incl K = a ∨
    ∃ k, 1 ≤ k ∧ k ≤ K ∧
      roundAt a lower upper incl k = some (shortestFrom a lower upper incl K) ∧
      ∀ j, k < j → j ≤ K → roundAt a lower upper incl j = none := by
  intro K
  induction K with
  | zero => exact Or.inl rfl
  | succ K ih =>
    cases hr : roundAt a lower upper incl (K + 1) with
    | some r =>
      right
      refine ⟨K + 1, by omega, le_refl _, ?_, fun j h1 h2 => by omega⟩
      simp only [shortestFrom, hr]
    | none =>
      have hs : shortestFrom a lower upper incl (K + 1) = shortestFrom a lower upper incl K := by
        simp only [shortestFrom, hr]
      rw [hs]
      rcases ih with ih | ⟨k, hk1, hk2, hk3, hk4⟩
      · exact Or.inl ih
      · right
        refine ⟨k, hk1, by omega, hk3, fun j h1 h2 => ?_⟩
        by_cases hj : j = K + 1
        · rw [hj]; exact hr
        · exact hk4 j h1 (by omega)

theorem shortest_ge (a : Nat) (h : 2 ^ 63 ≤ a) :
    2 ^ 63 ≤ shortest a ∧ (shortest a = a ∨ 10 ∣ shortest a) := by
  have h53 : ¬ a ≤ 2 ^ 53 := by omega
  unfold shortest
  rw [if_neg h53]
  rcases shortestFrom_cases a (a - halfUlpBelow a) (a + halfUlp a) (evenMantissa a) 21 with
    hs | ⟨k, hk1, hk2, hr, hmax⟩
  · rw [hs]; exact ⟨h, Or.inl rfl⟩
  · obtain ⟨j, rfl⟩ : ∃ j, k = j + 1 := ⟨k - 1, by omega⟩
    have hten : (10 : Nat) ^ (j + 1) = 10 * 10 ^ j := by rw [pow_succ]; ring
    have hpos : 0 < (10 : Nat) ^ (j + 1) := Nat.pow_pos (by norm_num)
    rcases roundAt_cases hr with hc | hc | ⟨hc, hlow, hup⟩
    · rw [hc]; exact ⟨h, Or.inl rfl⟩
    · rw [hc]
      have hlt : a < a / 10 ^ (j + 1) * 10 ^ (j + 1) + 10 ^ (j + 1) :=
        Nat.lt_div_mul_add hpos
      refine ⟨by omega, Or.inr ?_⟩
      rw [hten]
      exact ⟨a / (10 * 10 ^ j) * 10 ^ j + 10 ^ j, by ring⟩
    · rw [hc]
      refine ⟨?_, Or.inr ?_⟩
      · rw [hc] at hlow hup
        by_contra hlt
        have hhu := halfUlp_le a (by omega)
        have hhd := halfUlpBelow_le a
        have h64 : a < 2 ^ 64 := by omega
        have hu := halfUlp_63 a h h64
        rw [hu] at hup hhd
        have hj : 2 ≤ j := by
          by_contra hj
          have hnone := hmax 3 (by omega) (by omega)
          refine roundAt_isSome ?_ hnone
          rw [hu]
          norm_num
          omega
        obtain ⟨i, rfl⟩ : ∃ i, j = i + 2 := ⟨j - 2, by omega⟩
        cases i with
        | zero =>
          norm_num at hlow hup hlt
          omega
        | succ i =>
          have hw : a / 10 ^ (i + 1 + 2 + 1) * 10 ^ (i + 1 + 2 + 1) =
              10000 * (a / 10 ^ (i + 1 + 2 + 1) * 10 ^ i) := by
            have : (10 : Nat) ^ (i + 1 + 2 + 1) = 10000 * 10 ^ i := by
              rw [pow_add, pow_add, pow_add]; ring
            rw [this]; ring
          rw [hw] at hlow hlt
          omega
      · rw [hten]
        exact ⟨a / (10 * 10 ^ j) * 10 ^ j, by ring⟩

theorem shortest_gt (a : Nat) (h : 2 ^ 63 < a) : 2 ^ 63 < shortest a := by
  obtain ⟨h1, h2⟩ := shortest_ge a (le_of_lt h)
  rcases h2 with h2 | h2
  · rw [h2]; exact h
  · rcases Nat.lt_or_eq_of_le h1 with h3 | h3
    · exact h3
    · rw [← h3] at h2
      norm_num at h2

theorem shortest_small (a : Nat) (h : a ≤ 2 ^ 53) : shortest a = a := by
  unfold shortest
  rw [if_pos h]

theorem decodeInt_formatInteger_exact (n old : Int) (h1 : -2 ^ 53 ≤ n) (h2 : n ≤ 2 ^ 53) :
    decodeInt old (formatInteger n) = some n := by
  have habs : n.natAbs ≤ 2 ^ 53 := by omega
  have hlt : n.natAbs < 10 ^ 21 := by omega
  unfold formatInteger
  rw [if_pos hlt, shortest_small _ habs]
  have hn : (if n < 0 then -(n.natAbs : Int) else (n.natAbs : Int)) = n := by
    split <;> omega
  rw [hn]
  simp only [decodeInt]
  rw [if_pos ⟨by omega, by omega⟩]

theorem decodeInt_formatInteger_rejected (n old : Int) (h : ¬ (-2 ^ 63 ≤ n ∧ n < 2 ^ 63)) :
    decodeInt old (formatInteger n) = none := by
  unfold formatInteger
  by_cases hlt : n.natAbs < 10 ^ 21
  · rw [if_pos hlt]
    simp only [decodeInt]
    by_cases hneg : n < 0
    · have habs : 2 ^ 63 < n.natAbs := by omega
      have := shortest_gt _ habs
      rw [if_pos hneg, if_neg (by omega)]
    · have habs : 2 ^ 63 ≤ n.natAbs := by omega
      have := (shortest_ge _ habs).1
      rw [if_neg hneg, if_neg (by omega)]
  · rw [if_neg hlt]
    rfl

theorem lookup_cons_ite {β : Type} (k k1 : String) (v : β) (l : List (String × β)) :
    ((k1, v) :: l).lookup k = if k = k1 then some v else l.lookup k := by
  by_cases h : k = k1
  · subst h; simp [List.lookup]
  · have hb : (k == k1) = false := by simpa using h
    simp [List.lookup, hb, h]

theorem lookup_insertMember (k k0 : String) (j : JSON) (ms : List (String × JSON)) :
    (insertMember k0 j ms).lookup k = if k = k0 then some j else ms.lookup k := by
  induction ms with
  | nil => simp [insertMember, lookup_cons_ite]
  | cons m ms ih =>
    obtain ⟨k1, j1⟩ := m
    unfold insertMember
    by_cases h1 : k0.data < k1.data
    · simp [h1, lookup_cons_ite]
    · by_cases h2 : k0 = k1
      · subst h2
        by_cases h : k = k0 <;> simp [lookup_cons_ite, h]
      · by_cases h : k = k0
        · subst h
          simp [h1, h2, lookup_cons_ite, ih]
        · by_cases h3 : k = k1
          · subst h3; simp [h1, h2, lookup_cons_ite, h]
          · simp [h1, h2, lookup_cons_ite, ih, h, h3]

theorem mem_insertMember {m : String × JSON} {k : String} {j : JSON}
    {ms : List (String × JSON)} (h : m ∈ insertMember k j ms) : m = (k, j) ∨ m ∈ ms := by
  induction ms with
  | nil => simpa [insertMember] using h
  | cons m1 ms ih =>
    obtain ⟨k1, j1⟩ := m1
    unfold insertMember at h
    by_cases h1 : k.data < k1.data
    · simp [h1] at h
      rcases h with h | h | h <;> simp [h]
    · by_cases h2 : k = k1
      · simp [h1, h2] at h
        rcases h with h | h
        · left; rw [h, h2]
        · right; exact List.mem_cons_of_mem _ h
      · simp [h1, h2] at h
        rcases h with h | h
        · right; simp [h]
        · rcases ih h with h | h
          · left; exact h
          · right; exact List.mem_cons_of_mem _ h

theorem pairwise_insertMember (k : String) (j : JSON) {ms : List (String × JSON)}
    (h : ms.Pairwise keyLt) : (insertMember k j ms).Pairwise keyLt := by
  induction ms with
  | nil => simp [insertMember]
  | cons m1 ms ih =>
    obtain ⟨k1, j1⟩ := m1
    rw [List.pairwise_cons] at h
    unfold insertMember
    by_cases h1 : k.data < k1.data
    · simp only [h1, if_true]
      refine List.pairwise_cons.2 ⟨?_, List.pairwise_cons.2 h⟩
      intro m hm
      rcases List.mem_cons.1 hm with hm | hm
      · subst hm; exact h1
      · exact lt_trans h1 (h.1 m hm)
    · by_cases h2 : k = k1
      · subst h2
        simp only [h1, if_false, if_true]
        exact List.pairwise_cons.2 ⟨h.1, h.2⟩
      · simp only [h1, h2, if_false]
        refine List.pairwise_cons.2 ⟨?_, ih h.2⟩
        intro m hm
        rcases mem_insertMember hm with hm | hm
        · subst hm
          have hne : k1.data ≠ k.data := fun e => h2 (String.ext e).symm
          rcases lt_trichotomy k1.data k.data with h3 | h3 | h3
          · exact h3
          · exact absurd h3 hne
          · exact absurd h3 h1
        · exact h.1 m hm

theorem marshalMap_pairwise {kvs : List (String × GoValue)} {ms : List (String × JSON)}
    (h : marshalMap kvs = some ms) : ms.Pairwise keyLt := by
  induction kvs generalizing ms with
  | nil =>
    simp [marshalMap] at h
    subst h
    exact List.Pairwise.nil
  | cons kv kvs ih =>
    obtain ⟨k, v⟩ := kv
    simp only [marshalMap, Option.bind_eq_some, Option.map_eq_some'] at h
    obtain ⟨j, _, ms1, hms1, rfl⟩ := h
    exact pairwise_insertMember k j (ih hms1)

theorem marshalMap_lookup {kvs : List (String × GoValue)} {ms : List (String × JSON)}
    (h : marshalMap kvs = some ms) (k : String) :
    ms.lookup k = (kvs.lookup k).bind Marshal := by
  induction kvs generalizing ms with
  | nil =>
    simp [marshalMap] at h
    subst h
    simp [List.lookup]
  | cons kv kvs ih =>
    obtain ⟨k1, v⟩ := kv
    simp only [marshalMap, Option.bind_eq_some, Option.map_eq_some'] at h
    obtain ⟨j, hj, ms1, hms1, rfl⟩ := h
    rw [lookup_insertMember, lookup_cons_ite]
    by_cases hk : k = k1
    · simp [hk, hj]
    · simp [hk, ih hms1]

theorem marshalMap_key_mem {kvs : List (String × GoValue)} {ms : List (String × JSON)}
    (h : marshalMap kvs = some ms) {m : String × JSON} (hm : m ∈ ms) :
    ∃ v, (m.1, v) ∈ kvs := by
  induction kvs generalizing ms with
  | nil =>
    simp [marshalMap] at h
    subst h
    simp at hm
  | cons kv kvs ih =>
    obtain ⟨k1, v⟩ := kv
    simp only [marshalMap, Option.bind_eq_some, Option.map_eq_some'] at h
    obtain ⟨j, _, ms1, hms1, rfl⟩ := h
    rcases mem_insertMember hm with hm | hm
    · subst hm
      exact ⟨v, List.mem_cons_self _ _⟩
    · obtain ⟨w, hw⟩ := ih hms1 hm
      exact ⟨w, List.mem_cons_of_mem _ hw⟩

theorem marshalMap_value {kvs : List (String × GoValue)} {ms : List (String × JSON)}
    (h : marshalMap kvs = some ms) {k : String} {v : GoValue} (hv : kvs.lookup k = some v) :
    ∃ j, Marshal v = some j ∧ ms.lookup k = some j := by
  induction kvs generalizing ms with
  | nil => simp [List.lookup] at hv
  | cons kv kvs ih =>
    obtain ⟨k1, v1⟩ := kv
    simp only [marshalMap, Option.bind_eq_some, Option.map_eq_some'] at h
    obtain ⟨j, hj, ms1, hms1, rfl⟩ := h
    rw [lookup_cons_ite] at hv
    by_cases hk : k = k1
    · simp only [hk, if_true, Option.some.injEq] at hv
      subst hv
      exact ⟨j, hj, by rw [lookup_insertMember]; simp [hk]⟩
    · simp only [hk, if_false] at hv
      obtain ⟨j2, hj2, hl⟩ := ih hms1 hv
      exact ⟨j2, hj2, by rw [lookup_insertMember]; simp [hk, hl]⟩

theorem mem_of_lookup {β : Type} {l : List (String × β)} {k : String} {v : β}
    (h : l.lookup k = some v) : (k, v) ∈ l := by
  induction l with
  | nil => simp [List.lookup] at h
  | cons kv l ih =>
    obtain ⟨k1, v1⟩ := kv
    rw [lookup_cons_ite] at h
    by_cases hk : k = k1
    · simp only [hk, if_true, Option.some.injEq] at h
      subst h; subst hk
      exact List.mem_cons_self _ _
    · simp only [hk, if_false] at h
      exact List.mem_cons_of_mem _ (ih h)

theorem lookup_none_of_lt {ms : List (String × JSON)} {k : String}
    (h : ∀ m ∈ ms, k.data < m.1.data) : ms.lookup k = none := by
  induction ms with
  | nil => simp [List.lookup]
  | cons m ms ih =>
    obtain ⟨k1, j1⟩ := m
    rw [lookup_cons_ite]
    have h1 : k.data < k1.data := h (k1, j1) (List.mem_cons_self _ _)
    have hne : k ≠ k1 := fun e => by subst e; exact lt_irrefl _ h1
    simp only [hne, if_false]
    exact ih fun m hm => h m (List.mem_cons_of_mem _ hm)

theorem marshalSlice_mem {xs : List GoValue} {js : List JSON}
    (h : marshalSlice xs = some js) {e : GoValue} (he : e ∈ xs) :
    ∃ j, j ∈ js ∧ Marshal e = some j := by
  induction xs generalizing js with
  | nil => simp at he
  | cons x xs ih =>
    simp only [marshalSlice, Option.bind_eq_some, Option.map_eq_some'] at h
    obtain ⟨j, hj, js1, hjs1, rfl⟩ := h
    rcases List.mem_cons.1 he with he | he
    · subst he
      exact ⟨j, List.mem_cons_self _ _, hj⟩
    · obtain ⟨j2, hj2, hm⟩ := ih hjs1 he
      exact ⟨j2, List.mem_cons_of_mem _ hj2, hm⟩

theorem findField_none {σ : Type} {fields : List (Field σ)} {k : String}
    (hp : plainKey (fields.map Field.name) k = true) (hk : k ∉ fields.map Field.name) :
    findField fields k = none := by
  have h1 : fields.find? (fun f => f.name == k) = none := by
    rw [List.find?_eq_none]
    intro f hf
    have : f.name ≠ k := fun e => hk (e ▸ List.mem_map_of_mem _ hf)
    simpa using this
  have h2 : fields.find? (fun f => foldName f.name == foldName k) = none := by
    rw [List.find?_eq_none]
    intro f hf
    simp only [plainKey, Bool.or_eq_true, List.all_eq_true] at hp
    rcases hp with hp | hp
    · exact absurd (by simpa using hp) hk
    · have := hp f.name (List.mem_map_of_mem _ hf)
      simpa using this
  simp [findField, h1, h2]

theorem decodeObject_skip {σ : Type} {fields : List (Field σ)} {ms : List (String × JSON)}
    (h : ∀ m ∈ ms, findField fields m.1 = none) (v : σ) :
    decodeObject fields v ms = some v := by
  induction ms with
  | nil => rfl
  | cons m ms ih =>
    obtain ⟨k, x⟩ := m
    have h1 : findField fields k = none := h (k, x) (List.mem_cons_self _ _)
    simp only [decodeObject, h1]
    exact ih fun m hm => h m (List.mem_cons_of_mem _ hm)

theorem decodeObject_fail {σ : Type} {fields : List (Field σ)} {ms : List (String × JSON)}
    {k : String} {x : JSON} {f : Field σ} (hm : (k, x) ∈ ms)
    (hf : findField fields k = some f) (hx : ∀ v, f.store v x = none) (v : σ) :
    decodeObject fields v ms = none := by
  induction ms generalizing v with
  | nil => simp at hm
  | cons m ms ih =>
    obtain ⟨k1, x1⟩ := m
    rcases List.mem_cons.1 hm with hm | hm
    · cases hm
      simp [decodeObject, hf, hx]
    · simp only [decodeObject]
      cases hff : findField fields k1 with
      | none => exact ih hm v
      | some g =>
        simp only
        cases hg : g.store v x1 with
        | none => rfl
        | some v1 => exact ih hm v1

theorem findField_head {σ : Type} (f1 : Field σ) (fs : List (Field σ)) :
    findField (f1 :: fs) f1.name = some f1 := by
  simp [findField, List.find?]

theorem findField_second {σ : Type} (f1 f2 : Field σ) (h : f1.name ≠ f2.name) :
    findField [f1, f2] f2.name = some f2 := by
  have hb : (f1.name == f2.name) = false := by simpa using h
  simp [findField, List.find?, hb]

theorem decodeObject_one {σ : Type} (f : Field σ) {ms : List (String × JSON)}
    (hs : ms.Pairwise keyLt) (hp : ∀ m ∈ ms, plainKey [f.name] m.1 = true) (v : σ) :
    decodeObject [f] v ms = optStore f (ms.lookup f.name) v := by
  induction ms generalizing v with
  | nil => rfl
  | cons m ms ih =>
    obtain ⟨k, x⟩ := m
    rw [List.pairwise_cons] at hs
    have hrest := fun v1 => ih hs.2 (fun m hm => hp m (List.mem_cons_of_mem _ hm)) v1
    by_cases hk : k = f.name
    · subst hk
      have hnone : ms.lookup f.name = none := lookup_none_of_lt hs.1
      simp only [decodeObject, findField_head, lookup_cons_ite, if_true, optStore]
      cases f.store v x with
      | none => rfl
      | some v1 => simp [hrest, hnone, optStore]
    · have hnf : findField [f] k = none :=
        findField_none (hp (k, x) (List.mem_cons_self _ _)) (by simpa using hk)
      have hk2 : f.name ≠ k := fun e => hk e.symm
      simp only [decodeObject, hnf, lookup_cons_ite, hk2, if_false]
      exact hrest v

theorem decodeObject_two {σ : Type} (f1 f2 : Field σ) (hlt : f1.name.data < f2.name.data)
    {ms : List (String × JSON)} (hs : ms.Pairwise keyLt)
    (hp : ∀ m ∈ ms, plainKey [f1.name, f2.name] m.1 = true) (v : σ) :
    decodeObject [f1, f2] v ms =
      (optStore f1 (ms.lookup f1.name) v).bind (optStore f2 (ms.lookup f2.name)) := by
  have hne : f1.name ≠ f2.name := fun e => by rw [e] at hlt; exact lt_irrefl _ hlt
  induction ms generalizing v with
  | nil => rfl
  | cons m ms ih =>
    obtain ⟨k, x⟩ := m
    rw [List.pairwise_cons] at hs
    have hrest := fun v1 => ih hs.2 (fun m hm => hp m (List.mem_cons_of_mem _ hm)) v1
    by_cases hk1 : k = f1.name
    · subst hk1
      have hnone : ms.lookup f1.name = none := lookup_none_of_lt hs.1
      have hne2 : f2.name ≠ f1.name := fun e => hne e.symm
      simp only [decodeObject, findField_head, lookup_cons_ite, if_true, hne2, if_false, optStore]
      cases f1.store v x with
      | none => rfl
      | some v1 => simp [hrest, hnone, optStore]
    · by_cases hk2 : k = f2.name
      · subst hk2
        have hn2 : ms.lookup f2.name = none := lookup_none_of_lt hs.1
        have hn1 : ms.lookup f1.name = none :=
          lookup_none_of_lt fun m hm => lt_trans hlt (hs.1 m hm)
        simp only [decodeObject, findField_second f1 f2 hne, lookup_cons_ite, if_true, hne,
          if_false, optStore, hn1, Option.some_bind]
        cases f2.store v x with
        | none => rfl
        | some v1 => simp [hrest, hn1, hn2, optStore]
      · have hnf : findField [f1, f2] k = none :=
          findField_none (hp (k, x) (List.mem_cons_self _ _)) (by simp [hk1, hk2])
        have hk1' : f1.name ≠ k := fun e => hk1 e.symm
        have hk2' : f2.name ≠ k := fun e => hk2 e.symm
        simp only [decodeObject, hnf, lookup_cons_ite, hk1', hk2', if_false]
        exact hrest v

theorem marshal_map_inv {kvs : List (String × GoValue)} {j : JSON}
    (h : Marshal (.map kvs) = some j) : ∃ ms, j = .object ms ∧ marshalMap kvs = some ms := by
  simp only [Marshal, Option.map_eq_some'] at h
  obtain ⟨ms, hms, rfl⟩ := h
  exact ⟨ms, rfl, hms⟩

theorem marshalMap_plain {names : List String} {kvs : List (String × GoValue)}
    {ms : List (String × JSON)} (h : marshalMap kvs = some ms)
    (hp : plainMap names (.map kvs) = true) : ∀ m ∈ ms, plainKey names m.1 = true := by
  intro m hm
  obtain ⟨v, hv⟩ := marshalMap_key_mem h hm
  simp only [plainMap, List.all_eq_true] at hp
  exact hp (m.1, v) hv

theorem plainMap_inv {names : List String} {v : GoValue} (h : plainMap names v = true) :
    v = .null ∨ ∃ kvs, v = .map kvs := by
  cases v <;> simp [plainMap] at h
  · exact Or.inl rfl
  · exact Or.inr ⟨_, rfl⟩

theorem decodeInt_marshal {v : GoValue} {j : JSON} (h : Marshal v = some j) (old : Int) :
    decodeInt old j = intLeaf old (some v) := by
  cases v with
  | null => simp [Marshal] at h; subst h; rfl
  | bool b => simp [Marshal] at h; subst h; rfl
  | float64 x =>
    cases x with
    | int n => simp [Marshal] at h; subst h; rfl
    | nonInt => simp [Marshal] at h; subst h; rfl
    | nonFinite => simp [Marshal] at h
  | string s => simp [Marshal] at h; subst h; rfl
  | slice xs =>
    simp only [Marshal, Option.map_eq_some'] at h
    obtain ⟨js, _, rfl⟩ := h; rfl
  | map kvs =>
    simp only [Marshal, Option.map_eq_some'] at h
    obtain ⟨js, _, rfl⟩ := h; rfl

theorem decodeString_marshal {v : GoValue} {j : JSON} (h : Marshal v = some j) (old : String) :
    decodeString old j = stringLeaf old (some v) := by
  cases v with
  | null => simp [Marshal] at h; subst h; rfl
  | bool b => simp [Marshal] at h; subst h; rfl
  | float64 x =>
    cases x with
    | int n =>
      simp [Marshal] at h; subst h
      unfold formatInteger
      split <;> rfl
    | nonInt => simp [Marshal] at h; subst h; rfl
    | nonFinite => simp [Marshal] at h
  | string s => simp [Marshal] at h; subst h; rfl
  | slice xs =>
    simp only [Marshal, Option.map_eq_some'] at h
    obtain ⟨js, _, rfl⟩ := h; rfl
  | map kvs =>
    simp only [Marshal, Option.map_eq_some'] at h
    obtain ⟨js, _, rfl⟩ := h; rfl

/-- Decoding of an encoded plain `branch` mapping, by its `name`. -/
theorem decode_branch {bv : GoValue} {j : JSON} (hp : plainMap ["name"] bv = true)
    (hj : Marshal bv = some j) (v0 : BitbucketCloudPullRequestSourceBranch) :
    decodeStruct branchFields v0 j =
      (stringLeaf v0.Name (bv.field "name")).map fun s => ⟨s⟩ := by
  rcases plainMap_inv hp with rfl | ⟨kvs, rfl⟩
  · simp only [Marshal, Option.some.injEq] at hj
    subst hj
    rfl
  obtain ⟨ms, rfl, hms⟩ := marshal_map_inv hj
  have hone := decodeObject_one nameField (marshalMap_pairwise hms)
    (marshalMap_plain hms hp) v0
  simp only [decodeStruct, branchFields, hone, GoValue.field]
  have hname : nameField.name = "name" := rfl
  rw [hname]
  cases hl : kvs.lookup "name" with
  | none =>
    rw [marshalMap_lookup hms, hl]
    simp [optStore, stringLeaf]
  | some v =>
    obtain ⟨jv, hjv, hlk⟩ := marshalMap_value hms hl
    rw [hlk]
    simp only [optStore, nameField, decodeString_marshal hjv]

/-- Decoding of an encoded plain `commit` mapping, by its `hash`. -/
theorem decode_commit {cv : GoValue} {j : JSON} (hp : plainMap ["hash"] cv = true)
    (hj : Marshal cv = some j) (v0 : BitbucketCloudPullRequestSourceCommit) :
    decodeStruct commitFields v0 j =
      (stringLeaf v0.Hash (cv.field "hash")).map fun s => ⟨s⟩ := by
  rcases plainMap_inv hp with rfl | ⟨kvs, rfl⟩
  · simp only [Marshal, Option.some.injEq] at hj
    subst hj
    rfl
  obtain ⟨ms, rfl, hms⟩ := marshal_map_inv hj
  have hone := decodeObject_one hashField (marshalMap_pairwise hms)
    (marshalMap_plain hms hp) v0
  simp only [decodeStruct, commitFields, hone, GoValue.field]
  have hname : hashField.name = "hash" := rfl
  rw [hname]
  cases hl : kvs.lookup "hash" with
  | none =>
    rw [marshalMap_lookup hms, hl]
    simp [optStore, stringLeaf]
  | some v =>
    obtain ⟨jv, hjv, hlk⟩ := marshalMap_value hms hl
    rw [hlk]
    simp only [optStore, hashField, decodeString_marshal hjv]

/-- Decoding of an encoded plain `source` mapping, by its `branch.name` and
`commit.hash`. -/
theorem decode_source {sv : GoValue} {j : JSON} (hp : plainSource sv = true)
    (hj : Marshal sv = some j) (v0 : BitbucketCloudPullRequestSource) :
    decodeStruct sourceFields v0 j =
      (stringLeaf v0.Branch.Name ((sv.field "branch").bind (GoValue.field "name"))).bind fun n =>
        (stringLeaf v0.Commit.Hash ((sv.field "commit").bind (GoValue.field "hash"))).map
          fun h => ⟨⟨n⟩, ⟨h⟩⟩ := by
  simp only [plainSource, Bool.and_eq_true] at hp
  obtain ⟨⟨hp0, hpb⟩, hpc⟩ := hp
  rcases plainMap_inv hp0 with rfl | ⟨kvs, rfl⟩
  · simp only [Marshal, Option.some.injEq] at hj
    subst hj
    rfl
  obtain ⟨ms, rfl, hms⟩ := marshal_map_inv hj
  obtain ⟨⟨bn⟩, ⟨ch⟩⟩ := v0
  have htwo := fun v => decodeObject_two branchField commitField (by decide)
    (marshalMap_pairwise hms) (marshalMap_plain hms hp0) v
  have hb : branchField.name = "branch" := rfl
  have hc : commitField.name = "commit" := rfl
  have hfield : ∀ k, (GoValue.map kvs).field k = kvs.lookup k := fun _ => rfl
  simp only [decodeStruct, sourceFields, htwo, hfield, hb, hc] at hpb hpc ⊢
  have hB : ∀ v : BitbucketCloudPullRequestSource,
      optStore branchField (ms.lookup "branch") v =
        (stringLeaf v.Branch.Name ((kvs.lookup "branch").bind (GoValue.field "name"))).map
          fun n => ⟨⟨n⟩, v.Commit⟩ := by
    intro v
    cases hl : kvs.lookup "branch" with
    | none =>
      rw [marshalMap_lookup hms, hl]
      simp [optStore, stringLeaf]
    | some bv =>
      obtain ⟨jv, hjv, hlk⟩ := marshalMap_value hms hl
      rw [hl] at hpb
      rw [hlk]
      simp only [optStore, branchField, decode_branch hpb hjv, Option.map_map, Option.some_bind]
      rfl
  have hC : ∀ v : BitbucketCloudPullRequestSource,
      optStore commitField (ms.lookup "commit") v =
        (stringLeaf v.Commit.Hash ((kvs.lookup "commit").bind (GoValue.field "hash"))).map
          fun h => ⟨v.Branch, ⟨h⟩⟩ := by
    intro v
    cases hl : kvs.lookup "commit" with
    | none =>
      rw [marshalMap_lookup hms, hl]
      simp [optStore, stringLeaf]
    | some cv =>
      obtain ⟨jv, hjv, hlk⟩ := marshalMap_value hms hl
      rw [hl] at hpc
      rw [hlk]
      simp only [optStore, commitField, decode_commit hpc hjv, Option.map_map, Option.some_bind]
      rfl
  rw [hB]
  cases stringLeaf bn ((kvs.lookup "branch").bind (GoValue.field "name")) with
  | none => rfl
  | some n => simp [hC]

/-- Decoding of an encoded plain entry into a zero record, by its three
consumed fields. -/
theorem decode_entry {e : GoValue} {j : JSON} (hp : plainEntry e = true)
    (hj : Marshal e = some j) :
    decodeStruct pullFields BitbucketCloudPullRequest.zero j = entryRecord e := by
  simp only [plainEntry, Bool.and_eq_true] at hp
  obtain ⟨hp0, hps⟩ := hp
  rcases plainMap_inv hp0 with rfl | ⟨kvs, rfl⟩
  · simp only [Marshal, Option.some.injEq] at hj
    subst hj
    rfl
  obtain ⟨ms, rfl, hms⟩ := marshal_map_inv hj
  have htwo := fun v => decodeObject_two idField sourceField (by decide)
    (marshalMap_pairwise hms) (marshalMap_plain hms hp0) v
  have hi : idField.name = "id" := rfl
  have hs : sourceField.name = "source" := rfl
  have hfield : ∀ k, (GoValue.map kvs).field k = kvs.lookup k := fun _ => rfl
  simp only [decodeStruct, pullFields, htwo, hfield, hi, hs, entryRecord, idOf, branchNameOf,
    commitHashOf] at hps ⊢
  have hI : ∀ v : BitbucketCloudPullRequest,
      optStore idField (ms.lookup "id") v =
        (intLeaf v.ID (kvs.lookup "id")).map fun n => ⟨n, v.Source⟩ := by
    intro v
    cases hl : kvs.lookup "id" with
    | none =>
      rw [marshalMap_lookup hms, hl]
      simp [optStore, intLeaf]
    | some iv =>
      obtain ⟨jv, hjv, hlk⟩ := marshalMap_value hms hl
      rw [hlk]
      simp only [optStore, idField, decodeInt_marshal hjv]
  have hS : ∀ v : BitbucketCloudPullRequest,
      optStore sourceField (ms.lookup "source") v =
        (stringLeaf v.Source.Branch.Name
          (((kvs.lookup "source").bind (GoValue.field "branch")).bind
            (GoValue.field "name"))).bind fun n =>
          (stringLeaf v.Source.Commit.Hash
            (((kvs.lookup "source").bind (GoValue.field "commit")).bind
              (GoValue.field "hash"))).map fun h => ⟨v.ID, ⟨⟨n⟩, ⟨h⟩⟩⟩ := by
    intro v
    cases hl : kvs.lookup "source" with
    | none =>
      rw [marshalMap_lookup hms, hl]
      simp [optStore, stringLeaf]
    | some sv =>
      obtain ⟨jv, hjv, hlk⟩ := marshalMap_value hms hl
      rw [hl] at hps
      rw [hlk]
      simp only [optStore, sourceField, decode_source hps hjv, Option.some_bind]
      cases stringLeaf v.Source.Branch.Name ((sv.field "branch").bind (GoValue.field "name")) with
      | none => rfl
      | some n =>
        cases stringLeaf v.Source.Commit.Hash
          ((sv.field "commit").bind (GoValue.field "hash")) with
        | none => rfl
        | some h => rfl
  have hz : BitbucketCloudPullRequest.zero.ID = 0 := rfl
  rw [hI, hz]
  cases intLeaf 0 (kvs.lookup "id") with
  | none => rfl
  | some n =>
    simp only [Option.map_some', Option.some_bind, hS]
    rfl

theorem decodeArray_plain {xs : List GoValue} {js : List JSON}
    (h : marshalSlice xs = some js) (hp : ∀ e ∈ xs, plainEntry e = true) :
    decodeArray js = entryRecords xs := by
  induction xs generalizing js with
  | nil =>
    simp [marshalSlice] at h
    subst h
    rfl
  | cons x xs ih =>
    simp only [marshalSlice, Option.bind_eq_some, Option.map_eq_some'] at h
    obtain ⟨j, hj, js1, hjs1, rfl⟩ := h
    simp only [decodeArray, entryRecords,
      decode_entry (hp x (List.mem_cons_self _ _)) hj,
      ih hjs1 (fun e he => hp e (List.mem_cons_of_mem _ he))]

theorem decodeArray_fail {js : List JSON} {j : JSON} (hj : j ∈ js)
    (h : decodeStruct pullFields BitbucketCloudPullRequest.zero j = none) :
    decodeArray js = none := by
  induction js with
  | nil => simp at hj
  | cons x js ih =>
    rcases List.mem_cons.1 hj with hj | hj
    · subst hj
      simp [decodeArray, h]
    · simp only [decodeArray, ih hj]
      cases decodeStruct pullFields BitbucketCloudPullRequest.zero x <;> rfl

theorem marshalSlice_some {xs : List GoValue} (h : ∀ e ∈ xs, (Marshal e).isSome = true) :
    ∃ js, marshalSlice xs = some js := by
  induction xs with
  | nil => exact ⟨[], rfl⟩
  | cons x xs ih =>
    obtain ⟨js, hjs⟩ := ih fun e he => h e (List.mem_cons_of_mem _ he)
    obtain ⟨j, hj⟩ := Option.isSome_iff_exists.1 (h x (List.mem_cons_self _ _))
    exact ⟨j :: js, by simp [marshalSlice, hj, hjs]⟩

/-- The outcome of `List` on a successful provider answer that is a mapping
with a sequence under `values`. -/
theorem list_of_values {b : BitbucketCloudService} {p : Provider}
    {resp : List (String × GoValue)} {xs : List GoValue}
    (hans : p.answer p.served b.client ⟨b.owner, b.repositorySlug⟩ = (.map resp, none))
    (hvals : resp.lookup "values" = some (.slice xs)) :
    (b.List p).1 =
      match marshalSlice xs with
      | none => (none, some "Failed to convert response body to json")
      | some js =>
        match decodeArray js with
        | none => (none, some "Failed to convert json to type '[]BitbucketCloudPullRequest'")
        | some pulls => (some (pulls.map normalize), none) := by
  unfold BitbucketCloudService.List Gets
  simp only [hans, hvals, Marshal]
  cases marshalSlice xs with
  | none => rfl
  | some js =>
    simp only [Option.map_some', Unmarshal]
    cases decodeArray js with
    | none => rfl
    | some pulls => rfl

theorem findField_id : findField pullFields "id" = some idField := rfl

theorem findField_source : findField pullFields "source" = some sourceField := rfl

theorem findField_branch : findField sourceFields "branch" = some branchField := rfl

theorem findField_commit : findField sourceFields "commit" = some commitField := rfl

theorem findField_name : findField branchFields "name" = some nameField := rfl

theorem findField_hash : findField commitFields "hash" = some hashField := rfl

theorem intLeaf_rejected {v : GoValue} (h : rejectedAsInt v = true) (old : Int) :
    intLeaf old (some v) = none := by
  cases v with
  | float64 x =>
    cases x with
    | int n =>
      simp only [rejectedAsInt, Bool.not_eq_true', decide_eq_false_iff_not] at h
      simp only [intLeaf]
      exact decodeInt_formatInteger_rejected n old h
    | nonInt => rfl
    | nonFinite => rfl
  | null => simp [rejectedAsInt] at h
  | bool b => rfl
  | string s => rfl
  | slice xs => rfl
  | map kvs => rfl

theorem stringLeaf_rejected {v : GoValue} (h : rejectedAsString v = true) (old : String) :
    stringLeaf old (some v) = none := by
  cases v with
  | float64 x => rfl
  | null => simp [rejectedAsString] at h
  | bool b => rfl
  | string s => simp [rejectedAsString] at h
  | slice xs => rfl
  | map kvs => rfl

/-- A struct fails to decode from an encoded mapping one of whose members
selects a field that rejects the member value. -/
theorem decodeStruct_fail {σ : Type} {fields : List (Field σ)} {f : Field σ} {m v : GoValue}
    {k : String} {j : JSON} (hm : m.field k = some v) (hj : Marshal m = some j)
    (hf : findField fields k = some f)
    (hx : ∀ jv, Marshal v = some jv → ∀ st, f.store st jv = none) (st : σ) :
    decodeStruct fields st j = none := by
  cases m with
  | map kvs =>
    obtain ⟨ms, rfl, hms⟩ := marshal_map_inv hj
    obtain ⟨jv, hjv, hlk⟩ := marshalMap_value hms (show kvs.lookup k = some v from hm)
    exact decodeObject_fail (mem_of_lookup hlk) hf (hx jv hjv) st
  | null => simp [GoValue.field] at hm
  | bool b => simp [GoValue.field] at hm
  | float64 x => simp [GoValue.field] at hm
  | string s => simp [GoValue.field] at hm
  | slice xs => simp [GoValue.field] at hm

theorem decode_fail_id {e v : GoValue} {j : JSON} (hid : idOf e = some v)
    (hv : rejectedAsInt v = true) (hj : Marshal e = some j) :
    decodeStruct pullFields BitbucketCloudPullRequest.zero j = none := by
  refine decodeStruct_fail hid hj findField_id ?_ _
  intro jv hjv st
  simp [idField, decodeInt_marshal hjv, intLeaf_rejected hv]

theorem decode_fail_name {e v : GoValue} {j : JSON} (hn : branchNameOf e = some v)
    (hv : rejectedAsString v = true) (hj : Marshal e = some j) :
    decodeStruct pullFields BitbucketCloudPullRequest.zero j = none := by
  simp only [branchNameOf, Option.bind_eq_some] at hn
  obtain ⟨bv, ⟨sv, hs, hb⟩, hname⟩ := hn
  refine decodeStruct_fail hs hj findField_source ?_ _
  intro js hjs st
  have h1 : ∀ st1, decodeStruct sourceFields st1 js = none := by
    refine decodeStruct_fail hb hjs findField_branch ?_
    intro jb hjb st1
    have h2 : ∀ st2, decodeStruct branchFields st2 jb = none := by
      refine decodeStruct_fail hname hjb findField_name ?_
      intro jv hjv st2
      simp [nameField, decodeString_marshal hjv, stringLeaf_rejected hv]
    simp [branchField, h2]
  simp [sourceField, h1]

theorem decode_fail_hash {e v : GoValue} {j : JSON} (hn : commitHashOf e = some v)
    (hv : rejectedAsString v = true) (hj : Marshal e = some j) :
    decodeStruct pullFields BitbucketCloudPullRequest.zero j = none := by
  simp only [commitHashOf, Option.bind_eq_some] at hn
  obtain ⟨cv, ⟨sv, hs, hc⟩, hhash⟩ := hn
  refine decodeStruct_fail hs hj findField_source ?_ _
  intro js hjs st
  have h1 : ∀ st1, decodeStruct sourceFields st1 js = none := by
    refine decodeStruct_fail hc hjs findField_commit ?_
    intro jc hjc st1
    have h2 : ∀ st2, decodeStruct commitFields st2 jc = none := by
      refine decodeStruct_fail hhash hjc findField_hash ?_
      intro jv hjv st2
      simp [hashField, decodeString_marshal hjv, stringLeaf_rejected hv]
    simp [commitField, h2]
  simp [sourceField, h1]

/-- `List` fails as a whole when one entry fails to decode. -/
theorem list_fails_of_entry {b : BitbucketCloudService} {p : Provider}
    {resp : List (String × GoValue)} {xs : List GoValue} {e : GoValue}
    (hans : p.answer p.served b.client ⟨b.owner, b.repositorySlug⟩ = (.map resp, none))
    (hvals : resp.lookup "values" = some (.slice xs)) (he : e ∈ xs)
    (hbad : ∀ j, Marshal e = some j →
      decodeStruct pullFields BitbucketCloudPullRequest.zero j = none) :
    (b.List p).1.1 = none ∧
      ((b.List p).1.2 = some "Failed to convert response body to json" ∨
       (b.List p).1.2 = some "Failed to convert json to type '[]BitbucketCloudPullRequest'") := by
  rw [list_of_values hans hvals]
  cases hms : marshalSlice xs with
  | none => exact ⟨rfl, Or.inl rfl⟩
  | some js =>
    obtain ⟨j, hj, hje⟩ := marshalSlice_mem hms he
    simp [decodeArray_fail hj (hbad j hje)]

/-! ## The outcome of `List` and the claims -/

theorem forall2_left {α β : Type} {R : α → β → Prop} {xs : List α} {ys : List β}
    (h : List.Forall₂ R xs ys) : ∀ x ∈ xs, ∃ y, R x y := by
  induction h with
  | nil => intro x hx; simp at hx
  | cons hr _ ih =>
    intro x hx
    rcases List.mem_cons.1 hx with hx | hx
    · subst hx; exact ⟨_, hr⟩
    · exact ih x hx

theorem entryRecord_wellFormed {e : GoValue} {r : PullRequest} (h : WellFormedFor e r) :
    entryRecord e = some ⟨r.Number, ⟨⟨r.Branch⟩, ⟨r.HeadSHA⟩⟩⟩ := by
  obtain ⟨_, hid, hlo, hhi, hb, hh⟩ := h
  simp only [entryRecord, hid, hb, hh, intLeaf, stringLeaf,
    decodeInt_formatInteger_exact r.Number 0 hlo hhi]
  rfl

theorem entryRecords_wellFormed {xs : List GoValue} {rs : List PullRequest}
    (h : List.Forall₂ WellFormedFor xs rs) :
    ∃ pulls, entryRecords xs = some pulls ∧ pulls.map normalize = rs := by
  induction h with
  | nil => exact ⟨[], rfl, rfl⟩
  | @cons e r es rs1 hr _ ih =>
    obtain ⟨pulls, hp, hn⟩ := ih
    refine ⟨⟨r.Number, ⟨⟨r.Branch⟩, ⟨r.HeadSHA⟩⟩⟩ :: pulls, ?_, ?_⟩
    · simp only [entryRecords, entryRecord_wellFormed hr, hp]
      rfl
    · simp only [List.map_cons, hn]
      rfl

theorem entryRecord_agree {a c : GoValue} (h : Agree a c) : entryRecord a = entryRecord c := by
  obtain ⟨h1, h2, h3⟩ := h
  simp only [entryRecord, h1, h2, h3]

theorem entryRecords_agree {xs ys : List GoValue} (h : List.Forall₂ Agree xs ys) :
    entryRecords xs = entryRecords ys := by
  induction h with
  | nil => rfl
  | cons hr _ ih => simp only [entryRecords, entryRecord_agree hr, ih]

/-- The outcome of `List` on a sequence of consumable entries. -/
theorem list_of_consumable {b : BitbucketCloudService} {p : Provider}
    {resp : List (String × GoValue)} {xs : List GoValue}
    (hans : p.answer p.served b.client ⟨b.owner, b.repositorySlug⟩ = (.map resp, none))
    (hvals : resp.lookup "values" = some (.slice xs)) (hc : ∀ e ∈ xs, Consumable e) :
    (b.List p).1 =
      match entryRecords xs with
      | none => (none, some "Failed to convert json to type '[]BitbucketCloudPullRequest'")
      | some pulls => (some (pulls.map normalize), none) := by
  obtain ⟨js, hjs⟩ := marshalSlice_some fun e he => (hc e he).2
  rw [list_of_values hans hvals, hjs]
  simp only [decodeArray_plain hjs fun e he => (hc e he).1]

/-- C1 (amended): for every N and every provider answer that is a mapping
whose `values` is a sequence of N well-formed entries (entries of the
documented shape that can be encoded, with an `id` that is an integer of
magnitude at most 2^53 and string `source.branch.name` and
`source.commit.hash`), `List` returns no error and exactly N records, the i-th
carrying the `id`, `source.branch.name` and `source.commit.hash` of the i-th
entry. -/
theorem list_wellFormed_entries (b : BitbucketCloudService) (p : Provider)
    (resp : List (String × GoValue)) (xs : List GoValue) (rs : List PullRequest)
    (hans : p.answer p.served b.client ⟨b.owner, b.repositorySlug⟩ = (.map resp, none))
    (hvals : resp.lookup "values" = some (.slice xs))
    (hwf : List.Forall₂ WellFormedFor xs rs) :
    (b.List p).1 = (some rs, none) ∧ rs.length = xs.length := by
  have hc : ∀ e ∈ xs, Consumable e := fun e he => by
    obtain ⟨r, hr⟩ := forall2_left hwf e he
    exact hr.1
  obtain ⟨pulls, hp, hn⟩ := entryRecords_wellFormed hwf
  rw [list_of_consumable hans hvals hc, hp]
  exact ⟨by simp only [hn], hwf.length_eq.symm⟩

/-- Witness of C1: the scenario of the specification, owner `acme`, repository
`widgets`, one entry with id 42, branch `feature/x` and commit `abc123`; and
the empty `values`. -/
theorem list_wellFormed_entries_witness :
    ((acmeWidgets.List (answering (envelope [pullEntry (.float64 (.int 42)) "feature/x" "abc123"]))).1
        = (some [⟨42, "feature/x", "abc123"⟩], none) ∧
      [(⟨42, "feature/x", "abc123"⟩ : PullRequest)].length
        = [pullEntry (.float64 (.int 42)) "feature/x" "abc123"].length) ∧
    ((acmeWidgets.List (answering (envelope []))).1 = (some [], none) ∧
      ([] : List PullRequest).length = ([] : List GoValue).length) :=
  ⟨list_wellFormed_entries acmeWidgets
      (answering (envelope [pullEntry (.float64 (.int 42)) "feature/x" "abc123"]))
      [("values", .slice [pullEntry (.float64 (.int 42)) "feature/x" "abc123"])]
      [pullEntry (.float64 (.int 42)) "feature/x" "abc123"] [⟨42, "feature/x", "abc123"⟩]
      rfl rfl
      (List.Forall₂.cons ⟨⟨by decide, by decide⟩, rfl, by decide, by decide, rfl, rfl⟩
        List.Forall₂.nil),
   list_wellFormed_entries acmeWidgets (answering (envelope []))
      [("values", .slice [])] [] [] rfl rfl List.Forall₂.nil⟩


/-- Counterexample to C1 as stated: entries with an integer `id`, a string
`source.branch.name` and a string `source.commit.hash` on which `List` does
not return the record of the entry.  The ids 2^63 - 1024 and 2^54 + 24 are
within the range of a Go `int`, yet the record carries the numeral
`json.Marshal` prints for them, which is another number; the ids -2^63 and
10^19, a further key `ID` holding a string, and a further key holding a NaN
make `List` fail. -/
theorem list_wellFormed_entries_counterexample :
    (idOf nearMaxIdEntry = some (.float64 (.int 9223372036854774784)) ∧
      (acmeWidgets.List (answering (envelope [nearMaxIdEntry]))).1 =
        (some [⟨9223372036854775000, "feature/x", "abc123"⟩], none)) ∧
    (idOf roundedIdEntry = some (.float64 (.int 18014398509482008)) ∧
      (acmeWidgets.List (answering (envelope [roundedIdEntry]))).1 =
        (some [⟨18014398509482010, "feature/x", "abc123"⟩], none)) ∧
    (idOf minIdEntry = some (.float64 (.int (-9223372036854775808))) ∧
      (acmeWidgets.List (answering (envelope [minIdEntry]))).1 =
        (none, some "Failed to convert json to type '[]BitbucketCloudPullRequest'")) ∧
    (idOf bigIdEntry = some (.float64 (.int 10000000000000000000)) ∧
      branchNameOf bigIdEntry = some (.string "feature/x") ∧
      commitHashOf bigIdEntry = some (.string "abc123") ∧
      (acmeWidgets.List (answering (envelope [bigIdEntry]))).1 =
        (none, some "Failed to convert json to type '[]BitbucketCloudPullRequest'")) ∧
    (idOf aliasEntry = some (.float64 (.int 42)) ∧
      branchNameOf aliasEntry = some (.string "feature/x") ∧
      commitHashOf aliasEntry = some (.string "abc123") ∧
      (acmeWidgets.List (answering (envelope [aliasEntry]))).1 =
        (none, some "Failed to convert json to type '[]BitbucketCloudPullRequest'")) ∧
    (idOf nanEntry = some (.float64 (.int 42)) ∧
      branchNameOf nanEntry = some (.string "feature/x") ∧
      commitHashOf nanEntry = some (.string "abc123") ∧
      (acmeWidgets.List (answering (envelope [nanEntry]))).1 =
        (none, some "Failed to convert response body to json")) :=
  ⟨⟨rfl, by decide⟩, ⟨rfl, by decide⟩, ⟨rfl, by decide⟩, ⟨rfl, rfl, rfl, by decide⟩,
    ⟨rfl, rfl, rfl, by decide⟩, ⟨rfl, rfl, rfl, by decide⟩⟩

/-- C2 (amended): records never carry a field of the wrong type: when some
entry of `values` has an `id` that is present and is neither `null` nor an
integer in the range of a Go `int`, or a `source.branch.name` or
`source.commit.hash` that is present and is neither `null` nor a string,
`List` fails for the whole call: it returns a nil list and a decode error. -/
theorem list_fails_on_malformed_field (b : BitbucketCloudService) (p : Provider)
    (resp : List (String × GoValue)) (xs : List GoValue) (e : GoValue)
    (hans : p.answer p.served b.client ⟨b.owner, b.repositorySlug⟩ = (.map resp, none))
    (hvals : resp.lookup "values" = some (.slice xs)) (he : e ∈ xs)
    (hbad : (∃ v, idOf e = some v ∧ rejectedAsInt v = true) ∨
      (∃ v, branchNameOf e = some v ∧ rejectedAsString v = true) ∨
      (∃ v, commitHashOf e = some v ∧ rejectedAsString v = true)) :
    (b.List p).1.1 = none ∧
      ((b.List p).1.2 = some "Failed to convert response body to json" ∨
       (b.List p).1.2 = some "Failed to convert json to type '[]BitbucketCloudPullRequest'") := by
  refine list_fails_of_entry hans hvals he fun j hj => ?_
  rcases hbad with ⟨v, hv, hr⟩ | ⟨v, hv, hr⟩ | ⟨v, hv, hr⟩
  · exact decode_fail_id hv hr hj
  · exact decode_fail_name hv hr hj
  · exact decode_fail_hash hv hr hj

/-- Witness of C2: a good entry followed by one whose `source.branch.name` is
a number. -/
theorem list_fails_on_malformed_field_witness :
    (acmeWidgets.List (answering (envelope [pullEntry (.float64 (.int 1)) "main" "c0ffee",
        .map [("id", .float64 (.int 2)),
          ("source", .map [("branch", .map [("name", .float64 (.int 7))])])]]))).1.1 = none ∧
      ((acmeWidgets.List (answering (envelope [pullEntry (.float64 (.int 1)) "main" "c0ffee",
        .map [("id", .float64 (.int 2)),
          ("source", .map [("branch", .map [("name", .float64 (.int 7))])])]]))).1.2
          = some "Failed to convert response body to json" ∨
       (acmeWidgets.List (answering (envelope [pullEntry (.float64 (.int 1)) "main" "c0ffee",
        .map [("id", .float64 (.int 2)),
          ("source", .map [("branch", .map [("name", .float64 (.int 7))])])]]))).1.2
          = some "Failed to convert json to type '[]BitbucketCloudPullRequest'") :=
  list_fails_on_malformed_field acmeWidgets _ [("values", .slice _)] _
    (.map [("id", .float64 (.int 2)),
      ("source", .map [("branch", .map [("name", .float64 (.int 7))])])])
    rfl rfl (List.mem_cons_of_mem _ (List.mem_cons_self _ _))
    (Or.inr (Or.inl ⟨.float64 (.int 7), rfl, rfl⟩))

/-- Counterexample to C2 as stated: an entry without `id` does not make `List`
fail; the record is returned with `Number` left at zero. -/
theorem list_fails_on_malformed_field_counterexample :
    idOf noIdEntry = none ∧
      (acmeWidgets.List (answering (envelope [noIdEntry]))).1 =
        (some [⟨0, "feature/x", "abc123"⟩], none) :=
  ⟨rfl, by decide⟩

/-- The outcome of `List` on a provider error. -/
theorem list_of_error {b : BitbucketCloudService} {p : Provider} {response : GoValue}
    {err : String}
    (hans : p.answer p.served b.client ⟨b.owner, b.repositorySlug⟩ = (response, some err)) :
    b.List p = ((none, some ("error listing pull requests for " ++ b.owner ++ "/" ++
      b.repositorySlug ++ ": " ++ err)), { p with served := p.served + 1 }) := by
  unfold BitbucketCloudService.List Gets
  simp only [hans]

/-- The outcome of `List` on a provider result without a sequence under
`values`. -/
theorem list_of_invalid {b : BitbucketCloudService} {p : Provider} {response : GoValue}
    (hans : p.answer p.served b.client ⟨b.owner, b.repositorySlug⟩ = (response, none))
    (hshape : (∀ resp, response ≠ .map resp) ∨
      (∃ resp, response = .map resp ∧ resp.lookup "values" = none) ∨
      (∃ resp v, response = .map resp ∧ resp.lookup "values" = some v ∧
        ∀ xs, v ≠ .slice xs)) :
    (b.List p).1 = (none, some "Not a valid format") := by
  unfold BitbucketCloudService.List Gets
  simp only [hans]
  rcases hshape with h | ⟨resp, rfl, h⟩ | ⟨resp, v, rfl, h, hv⟩
  · cases response with
    | map resp => exact absurd rfl (h resp)
    | null => rfl
    | bool x => rfl
    | float64 x => rfl
    | string s => rfl
    | slice xs => rfl
  · simp only [h]
  · simp only [h]
    cases v with
    | slice xs => exact absurd rfl (hv xs)
    | null => rfl
    | bool x => rfl
    | float64 x => rfl
    | string s => rfl
    | map kvs => rfl

/-- C3: when the provider result is not a mapping, or is a mapping without the
key `values`, or its `values` is not a sequence, `List` returns a nil list and
the error "Not a valid format". -/
theorem list_not_valid_format (b : BitbucketCloudService) (p : Provider) (response : GoValue)
    (hans : p.answer p.served b.client ⟨b.owner, b.repositorySlug⟩ = (response, none))
    (hshape : (∀ resp, response ≠ .map resp) ∨
      (∃ resp, response = .map resp ∧ resp.lookup "values" = none) ∨
      (∃ resp v, response = .map resp ∧ resp.lookup "values" = some v ∧
        ∀ xs, v ≠ .slice xs)) :
    (b.List p).1 = (none, some "Not a valid format") :=
  list_of_invalid hans hshape

/-- Witness of C3: a sequence in place of the mapping, a mapping with `size`
only, and a mapping whose `values` is a string. -/
theorem list_not_valid_format_witness :
    (acmeWidgets.List (answering (.slice []))).1 = (none, some "Not a valid format") ∧
    (acmeWidgets.List (answering (.map [("size", .float64 (.int 0))]))).1
      = (none, some "Not a valid format") ∧
    (acmeWidgets.List (answering (.map [("values", .string "none")]))).1
      = (none, some "Not a valid format") :=
  ⟨list_not_valid_format acmeWidgets (answering (.slice [])) (.slice []) rfl
      (Or.inl fun _ h => by cases h),
   list_not_valid_format acmeWidgets (answering (.map [("size", .float64 (.int 0))]))
      (.map [("size", .float64 (.int 0))]) rfl (Or.inr (Or.inl ⟨_, rfl, rfl⟩)),
   list_not_valid_format acmeWidgets (answering (.map [("values", .string "none")]))
      (.map [("values", .string "none")]) rfl
      (Or.inr (Or.inr ⟨_, .string "none", rfl, rfl, fun _ h => by cases h⟩))⟩

theorem rejectedAsInt_of_nonNumeric {v : GoValue} (h : nonNumeric v = true) :
    rejectedAsInt v = true := by
  cases v with
  | float64 x => simp [nonNumeric] at h
  | null => simp [nonNumeric] at h
  | bool b => rfl
  | string s => rfl
  | slice xs => rfl
  | map kvs => rfl

/-- C4 (amended): when some entry of `values` has an `id` that is a string, a
boolean, a mapping or a sequence, whether or not its `source.commit.hash` is
present and whatever the other entries are, `List` fails for the whole call:
it returns a nil list and a decode error. -/
theorem list_fails_on_nonNumeric_id (b : BitbucketCloudService) (p : Provider)
    (resp : List (String × GoValue)) (xs : List GoValue) (e v : GoValue)
    (hans : p.answer p.served b.client ⟨b.owner, b.repositorySlug⟩ = (.map resp, none))
    (hvals : resp.lookup "values" = some (.slice xs)) (he : e ∈ xs)
    (hid : idOf e = some v) (hv : nonNumeric v = true) :
    (b.List p).1.1 = none ∧
      ((b.List p).1.2 = some "Failed to convert response body to json" ∨
       (b.List p).1.2 = some "Failed to convert json to type '[]BitbucketCloudPullRequest'") :=
  list_fails_of_entry hans hvals he fun _ hj =>
    decode_fail_id hid (rejectedAsInt_of_nonNumeric hv) hj

/-- Witness of C4: a good entry followed by one whose `id` is the string
`"42"`. -/
theorem list_fails_on_nonNumeric_id_witness :
    (acmeWidgets.List (answering (envelope [pullEntry (.float64 (.int 1)) "main" "c0ffee",
        pullEntry (.string "42") "feature/x" "abc123"]))).1.1 = none ∧
      ((acmeWidgets.List (answering (envelope [pullEntry (.float64 (.int 1)) "main" "c0ffee",
        pullEntry (.string "42") "feature/x" "abc123"]))).1.2
          = some "Failed to convert response body to json" ∨
       (acmeWidgets.List (answering (envelope [pullEntry (.float64 (.int 1)) "main" "c0ffee",
        pullEntry (.string "42") "feature/x" "abc123"]))).1.2
          = some "Failed to convert json to type '[]BitbucketCloudPullRequest'") :=
  list_fails_on_nonNumeric_id acmeWidgets _ [("values", .slice _)] _
    (pullEntry (.string "42") "feature/x" "abc123") (.string "42")
    rfl rfl (List.mem_cons_of_mem _ (List.mem_cons_self _ _)) rfl rfl

/-- Counterexample to C4 as stated: an entry whose `id` is `null` and whose
`source.commit.hash` is present does not make `List` fail; the record is
returned with `Number` zero. -/
theorem list_fails_on_nonNumeric_id_counterexample :
    idOf nullIdEntry = some .null ∧ commitHashOf nullIdEntry = some (.string "abc123") ∧
      (acmeWidgets.List (answering (envelope [nullIdEntry]))).1 =
        (some [⟨0, "", "abc123"⟩], none) :=
  ⟨rfl, rfl, by decide⟩

/-- The two shapes of the pair `List` returns. -/
theorem list_outcome_cases (b : BitbucketCloudService) (p : Provider) :
    (∃ rs, (b.List p).1 = (some rs, none)) ∨ (∃ err, (b.List p).1 = (none, some err)) := by
  cases hans : p.answer p.served b.client ⟨b.owner, b.repositorySlug⟩ with
  | mk response err =>
    cases err with
    | some e => exact Or.inr ⟨_, by rw [list_of_error hans]⟩
    | none =>
      by_cases hm : ∃ resp xs, response = .map resp ∧ resp.lookup "values" = some (.slice xs)
      · obtain ⟨resp, xs, rfl, hvals⟩ := hm
        rw [list_of_values hans hvals]
        cases marshalSlice xs with
        | none => exact Or.inr ⟨_, rfl⟩
        | some js =>
          dsimp only
          cases decodeArray js with
          | none => exact Or.inr ⟨_, rfl⟩
          | some pulls => exact Or.inl ⟨_, rfl⟩
      · refine Or.inr ⟨_, list_of_invalid hans ?_⟩
        cases response with
        | map resp =>
          refine Or.inr ?_
          cases hl : resp.lookup "values" with
          | none => exact Or.inl ⟨resp, rfl, hl⟩
          | some v =>
            exact Or.inr ⟨resp, v, rfl, hl, fun xs hx => hm ⟨resp, xs, rfl, by rw [hl, hx]⟩⟩
        | null => exact Or.inl fun _ h => by cases h
        | bool x => exact Or.inl fun _ h => by cases h
        | float64 x => exact Or.inl fun _ h => by cases h
        | string s => exact Or.inl fun _ h => by cases h
        | slice xs => exact Or.inl fun _ h => by cases h

/-- C5: `List` has no partial success: whatever the provider answers, it
returns either a non-nil list with a nil error or a nil list with a non-nil
error, and never a list together with an error. -/
theorem list_no_partial_success (b : BitbucketCloudService) (p : Provider) :
    ((∃ rs, (b.List p).1 = (some rs, none)) ∨ (∃ err, (b.List p).1 = (none, some err))) ∧
      ¬ ∃ rs err, (b.List p).1 = (some rs, some err) := by
  refine ⟨list_outcome_cases b p, ?_⟩
  rintro ⟨rs, err, h⟩
  rcases list_outcome_cases b p with ⟨rs1, h1⟩ | ⟨err1, h1⟩
  · rw [h1] at h
    cases h
  · rw [h1] at h
    cases h

/-- The outcome of `List` on a provider result that fails one of its checks. -/
theorem list_of_failurePoint {b : BitbucketCloudService} {p : Provider} {r : GoValue}
    {f : FailurePoint}
    (hans : p.answer p.served b.client ⟨b.owner, b.repositorySlug⟩ = (r, none))
    (hf : failurePoint r = some f) :
    (b.List p).1 = (none, some (failureMessage f)) := by
  cases r with
  | map resp =>
    cases hl : resp.lookup "values" with
    | none =>
      simp only [failurePoint, hl, Option.some.injEq] at hf
      subst hf
      exact list_of_invalid hans (Or.inr (Or.inl ⟨resp, rfl, hl⟩))
    | some v =>
      cases v with
      | slice xs =>
        rw [list_of_values hans hl]
        simp only [failurePoint, hl, Marshal] at hf
        cases hm : marshalSlice xs with
        | none =>
          simp only [hm, Option.map_none', Option.some.injEq] at hf
          subst hf
          rfl
        | some js =>
          simp only [hm, Option.map_some', Unmarshal] at hf
          cases hd : decodeArray js with
          | none =>
            simp only [hd, Option.some.injEq] at hf
            subst hf
            simp only [hd]
            rfl
          | some pulls => simp [hd] at hf
      | null =>
        simp only [failurePoint, hl, Option.some.injEq] at hf
        subst hf
        exact list_of_invalid hans
          (Or.inr (Or.inr ⟨resp, _, rfl, hl, fun _ h => by cases h⟩))
      | bool x =>
        simp only [failurePoint, hl, Option.some.injEq] at hf
        subst hf
        exact list_of_invalid hans
          (Or.inr (Or.inr ⟨resp, _, rfl, hl, fun _ h => by cases h⟩))
      | float64 x =>
        simp only [failurePoint, hl, Option.some.injEq] at hf
        subst hf
        exact list_of_invalid hans
          (Or.inr (Or.inr ⟨resp, _, rfl, hl, fun _ h => by cases h⟩))
      | string x =>
        simp only [failurePoint, hl, Option.some.injEq] at hf
        subst hf
        exact list_of_invalid hans
          (Or.inr (Or.inr ⟨resp, _, rfl, hl, fun _ h => by cases h⟩))
      | map x =>
        simp only [failurePoint, hl, Option.some.injEq] at hf
        subst hf
        exact list_of_invalid hans
          (Or.inr (Or.inr ⟨resp, _, rfl, hl, fun _ h => by cases h⟩))
  | null =>
    simp only [failurePoint, Option.some.injEq] at hf
    subst hf
    exact list_of_invalid hans (Or.inl fun _ h => by cases h)
  | bool x =>
    simp only [failurePoint, Option.some.injEq] at hf
    subst hf
    exact list_of_invalid hans (Or.inl fun _ h => by cases h)
  | float64 x =>
    simp only [failurePoint, Option.some.injEq] at hf
    subst hf
    exact list_of_invalid hans (Or.inl fun _ h => by cases h)
  | string x =>
    simp only [failurePoint, Option.some.injEq] at hf
    subst hf
    exact list_of_invalid hans (Or.inl fun _ h => by cases h)
  | slice x =>
    simp only [failurePoint, Option.some.injEq] at hf
    subst hf
    exact list_of_invalid hans (Or.inl fun _ h => by cases h)

/-- C6 (amended): the four decode failure points of `List` produce three
error messages: the mapping check and the `values` check both return "Not a
valid format", the re-encoding step and the final decode each return a message
of their own.  Two failures carry the same message exactly when they are at
the same point or are the mapping check and the `values` check. -/
theorem failure_points_messages (b : BitbucketCloudService) (p1 p2 : Provider)
    (r1 r2 : GoValue) (f1 f2 : FailurePoint)
    (h1 : p1.answer p1.served b.client ⟨b.owner, b.repositorySlug⟩ = (r1, none))
    (h2 : p2.answer p2.served b.client ⟨b.owner, b.repositorySlug⟩ = (r2, none))
    (hf1 : failurePoint r1 = some f1) (hf2 : failurePoint r2 = some f2) :
    (b.List p1).1 = (none, some (failureMessage f1)) ∧
    (b.List p2).1 = (none, some (failureMessage f2)) ∧
    ((b.List p1).1.2 = (b.List p2).1.2 ↔
      (f1 = f2 ∨ (f1 = .mapping ∧ f2 = .values) ∨ (f1 = .values ∧ f2 = .mapping))) := by
  rw [list_of_failurePoint h1 hf1, list_of_failurePoint h2 hf2]
  refine ⟨rfl, rfl, ?_⟩
  cases f1 <;> cases f2 <;> decide

/-- Witness of C6: a NaN in an entry fails the re-encoding, a string `id`
fails the final decode, and the two messages differ. -/
theorem failure_points_messages_witness :
    (acmeWidgets.List (answering (envelope [nanEntry]))).1 =
      (none, some (failureMessage .reencoding)) ∧
    (acmeWidgets.List (answering (envelope [pullEntry (.string "42") "main" "c0ffee"]))).1 =
      (none, some (failureMessage .decoding)) ∧
    ((acmeWidgets.List (answering (envelope [nanEntry]))).1.2 =
        (acmeWidgets.List (answering (envelope [pullEntry (.string "42") "main" "c0ffee"]))).1.2 ↔
      (FailurePoint.reencoding = FailurePoint.decoding ∨
        (FailurePoint.reencoding = .mapping ∧ FailurePoint.decoding = .values) ∨
        (FailurePoint.reencoding = .values ∧ FailurePoint.decoding = .mapping))) :=
  failure_points_messages acmeWidgets (answering (envelope [nanEntry]))
    (answering (envelope [pullEntry (.string "42") "main" "c0ffee"]))
    (envelope [nanEntry]) (envelope [pullEntry (.string "42") "main" "c0ffee"])
    .reencoding .decoding rfl rfl rfl rfl

/-- Counterexample to C6 as stated: `null` fails the mapping check, the empty
mapping passes it and fails the `values` check, and `List` returns the same
error message for both. -/
theorem failure_points_messages_counterexample :
    failurePoint .null = some .mapping ∧ failurePoint (.map []) = some .values ∧
    FailurePoint.mapping ≠ FailurePoint.values ∧
    (acmeWidgets.List (answering .null)).1 = (none, some "Not a valid format") ∧
    (acmeWidgets.List (answering (.map []))).1 = (none, some "Not a valid format") :=
  ⟨rfl, rfl, by decide, by decide, by decide⟩

/-- C7: for both constructors and every non-empty base URL: when the URL
parses, construction succeeds, with a nil error and a service holding the
given owner and repository slug and a client bound to the parsed URL; when it
does not parse, construction returns a nil service and an error that wraps the
parse error with the base URL, owner and repository slug. -/
theorem constructors_on_base_url (parse : String → Except String URL)
    (username password baseUrl owner repositorySlug : String) (hne : baseUrl ≠ "") :
    (∀ url, parse baseUrl = .ok url →
      NewBitbucketCloudServiceBasicAuth parse username password baseUrl owner repositorySlug =
        (some ⟨⟨⟨username, password, ""⟩, some url⟩, owner, repositorySlug⟩, none) ∧
      NewBitbucketCloudServiceNoAuth parse baseUrl owner repositorySlug =
        (some ⟨⟨⟨"", "", ""⟩, some url⟩, owner, repositorySlug⟩, none)) ∧
    (∀ err, parse baseUrl = .error err →
      NewBitbucketCloudServiceBasicAuth parse username password baseUrl owner repositorySlug =
        (none, some ("error parsing base url of " ++ baseUrl ++ " for " ++ owner ++ "/" ++
          repositorySlug ++ ": " ++ err)) ∧
      NewBitbucketCloudServiceNoAuth parse baseUrl owner repositorySlug =
        (none, some ("error parsing base url of " ++ baseUrl ++ " for " ++ owner ++ "/" ++
          repositorySlug ++ ": " ++ err))) := by
  constructor
  · intro url h
    simp [NewBitbucketCloudServiceBasicAuth, NewBitbucketCloudServiceNoAuth, parseUrl, hne, h,
      NewBasicAuth, NewOAuthbearerToken, Client.SetApiBaseURL]
  · intro err h
    simp [NewBitbucketCloudServiceBasicAuth, NewBitbucketCloudServiceNoAuth, parseUrl, hne, h]

/-- Witness of C7: a base URL the stand-in parser accepts and one, with a tab
in it, that it rejects. -/
theorem constructors_on_base_url_witness :
    (NewBitbucketCloudServiceBasicAuth sampleParse "user" "secret"
        "https://bitbucket.example.com/2.0" "acme" "widgets" =
        (some ⟨⟨⟨"user", "secret", ""⟩, some ⟨"", "", "https://bitbucket.example.com/2.0"⟩⟩,
          "acme", "widgets"⟩, none) ∧
      NewBitbucketCloudServiceNoAuth sampleParse "https://bitbucket.example.com/2.0" "acme"
        "widgets" =
        (some ⟨⟨⟨"", "", ""⟩, some ⟨"", "", "https://bitbucket.example.com/2.0"⟩⟩,
          "acme", "widgets"⟩, none)) ∧
    (NewBitbucketCloudServiceBasicAuth sampleParse "user" "secret" "https://bit\tbucket" "acme"
        "widgets" =
        (none, some ("error parsing base url of " ++ "https://bit\tbucket" ++ " for " ++ "acme" ++
          "/" ++ "widgets" ++ ": " ++ "net/url: invalid control character in URL")) ∧
      NewBitbucketCloudServiceNoAuth sampleParse "https://bit\tbucket" "acme" "widgets" =
        (none, some ("error parsing base url of " ++ "https://bit\tbucket" ++ " for " ++ "acme" ++
          "/" ++ "widgets" ++ ": " ++ "net/url: invalid control character in URL"))) :=
  ⟨(constructors_on_base_url sampleParse "user" "secret" "https://bitbucket.example.com/2.0"
      "acme" "widgets" (by decide)).1 _ rfl,
   (constructors_on_base_url sampleParse "user" "secret" "https://bit\tbucket"
      "acme" "widgets" (by decide)).2 _ rfl⟩

/-- C8: for an empty base URL `parseUrl` parses the literal
`https://api.bitbucket.org/2.0`, and both constructors, whatever the user
name, password, owner and repository slug, return what the parser makes of
that literal: a service bound to the parsed URL, or the wrapped parse error.
With `url.Parse` the literal parses, to scheme `https`, host
`api.bitbucket.org` and path `/2.0`, so construction succeeds.  A non-empty
base URL is never replaced by the default: `parseUrl` parses it as it is and
both constructors return what the parser makes of it. -/
theorem empty_base_url_default (parse : String → Except String URL) :
    parseUrl parse "" = parse "https://api.bitbucket.org/2.0" ∧
    (∀ uri, uri ≠ "" → parseUrl parse uri = parse uri) ∧
    (∀ url, parse "https://api.bitbucket.org/2.0" = .ok url →
      ∀ username password owner repositorySlug : String,
        NewBitbucketCloudServiceBasicAuth parse username password "" owner repositorySlug =
          (some ⟨⟨⟨username, password, ""⟩, some url⟩, owner, repositorySlug⟩, none) ∧
        NewBitbucketCloudServiceNoAuth parse "" owner repositorySlug =
          (some ⟨⟨⟨"", "", ""⟩, some url⟩, owner, repositorySlug⟩, none)) ∧
    (∀ err, parse "https://api.bitbucket.org/2.0" = .error err →
      ∀ username password owner repositorySlug : String,
        NewBitbucketCloudServiceBasicAuth parse username password "" owner repositorySlug =
          (none, some ("error parsing base url of " ++ "" ++ " for " ++ owner ++ "/" ++
            repositorySlug ++ ": " ++ err)) ∧
        NewBitbucketCloudServiceNoAuth parse "" owner repositorySlug =
          (none, some ("error parsing base url of " ++ "" ++ " for " ++ owner ++ "/" ++
            repositorySlug ++ ": " ++ err))) ∧
    (∀ baseUrl, baseUrl ≠ "" → ∀ username password owner repositorySlug : String,
      (∀ url, parse baseUrl = .ok url →
        NewBitbucketCloudServiceBasicAuth parse username password baseUrl owner repositorySlug =
          (some ⟨⟨⟨username, password, ""⟩, some url⟩, owner, repositorySlug⟩, none) ∧
        NewBitbucketCloudServiceNoAuth parse baseUrl owner repositorySlug =
          (some ⟨⟨⟨"", "", ""⟩, some url⟩, owner, repositorySlug⟩, none)) ∧
      (∀ err, parse baseUrl = .error err →
        NewBitbucketCloudServiceBasicAuth parse username password baseUrl owner repositorySlug =
          (none, some ("error parsing base url of " ++ baseUrl ++ " for " ++ owner ++ "/" ++
            repositorySlug ++ ": " ++ err)) ∧
        NewBitbucketCloudServiceNoAuth parse baseUrl owner repositorySlug =
          (none, some ("error parsing base url of " ++ baseUrl ++ " for " ++ owner ++ "/" ++
            repositorySlug ++ ": " ++ err)))) ∧
    (∀ username password owner repositorySlug : String,
      NewBitbucketCloudServiceBasicAuth urlParse username password "" owner repositorySlug =
        (some ⟨⟨⟨username, password, ""⟩, some ⟨"https", "api.bitbucket.org", "/2.0"⟩⟩,
          owner, repositorySlug⟩, none) ∧
      NewBitbucketCloudServiceNoAuth urlParse "" owner repositorySlug =
        (some ⟨⟨⟨"", "", ""⟩, some ⟨"https", "api.bitbucket.org", "/2.0"⟩⟩,
          owner, repositorySlug⟩, none)) := by
  have hlit : urlParse "https://api.bitbucket.org/2.0" =
      .ok ⟨"https", "api.bitbucket.org", "/2.0"⟩ := rfl
  refine ⟨?_, ?_, ?_, ?_, ?_, ?_⟩
  · simp only [parseUrl, if_true]
    cases parse "https://api.bitbucket.org/2.0" <;> rfl
  · intro uri hne
    simp only [parseUrl, hne, if_false]
    cases parse uri <;> rfl
  · intro url h username password owner repositorySlug
    simp [NewBitbucketCloudServiceBasicAuth, NewBitbucketCloudServiceNoAuth, parseUrl, h,
      NewBasicAuth, NewOAuthbearerToken, Client.SetApiBaseURL]
  · intro err h username password owner repositorySlug
    simp [NewBitbucketCloudServiceBasicAuth, NewBitbucketCloudServiceNoAuth, parseUrl, h]
  · intro baseUrl hne username password owner repositorySlug
    constructor
    · intro url h
      simp [NewBitbucketCloudServiceBasicAuth, NewBitbucketCloudServiceNoAuth, parseUrl, hne, h,
        NewBasicAuth, NewOAuthbearerToken, Client.SetApiBaseURL]
    · intro err h
      simp [NewBitbucketCloudServiceBasicAuth, NewBitbucketCloudServiceNoAuth, parseUrl, hne, h]
  · intro username password owner repositorySlug
    simp [NewBitbucketCloudServiceBasicAuth, NewBitbucketCloudServiceNoAuth, parseUrl, hlit,
      NewBasicAuth, NewOAuthbearerToken, Client.SetApiBaseURL]

/-- Witness of C8, with `url.Parse` as the parser: construction with an empty
base URL; a base URL of its own, which is the one the client is bound to; and
a base URL with a tab in it, which is refused. -/
theorem empty_base_url_default_witness :
    (NewBitbucketCloudServiceBasicAuth urlParse "user" "secret" "" "acme" "widgets" =
        (some ⟨⟨⟨"user", "secret", ""⟩, some ⟨"https", "api.bitbucket.org", "/2.0"⟩⟩,
          "acme", "widgets"⟩, none) ∧
      NewBitbucketCloudServiceNoAuth urlParse "" "acme" "widgets" =
        (some ⟨⟨⟨"", "", ""⟩, some ⟨"https", "api.bitbucket.org", "/2.0"⟩⟩,
          "acme", "widgets"⟩, none)) ∧
    (NewBitbucketCloudServiceBasicAuth urlParse "user" "secret"
        "http://bitbucket.example.com:7990/rest" "acme" "widgets" =
        (some ⟨⟨⟨"user", "secret", ""⟩, some ⟨"http", "bitbucket.example.com:7990", "/rest"⟩⟩,
          "acme", "widgets"⟩, none) ∧
      NewBitbucketCloudServiceNoAuth urlParse "http://bitbucket.example.com:7990/rest" "acme"
        "widgets" =
        (some ⟨⟨⟨"", "", ""⟩, some ⟨"http", "bitbucket.example.com:7990", "/rest"⟩⟩,
          "acme", "widgets"⟩, none)) ∧
    (NewBitbucketCloudServiceBasicAuth urlParse "user" "secret" "https://bit\tbucket" "acme"
        "widgets" =
        (none, some ("error parsing base url of " ++ "https://bit\tbucket" ++ " for " ++ "acme" ++
          "/" ++ "widgets" ++ ": " ++
          "parse \"https://bit\\tbucket\": net/url: invalid control character in URL")) ∧
      NewBitbucketCloudServiceNoAuth urlParse "https://bit\tbucket" "acme" "widgets" =
        (none, some ("error parsing base url of " ++ "https://bit\tbucket" ++ " for " ++ "acme" ++
          "/" ++ "widgets" ++ ": " ++
          "parse \"https://bit\\tbucket\": net/url: invalid control character in URL"))) ∧
    parseUrl urlParse "http://bitbucket.example.com:7990/rest" =
      urlParse "http://bitbucket.example.com:7990/rest" :=
  ⟨(empty_base_url_default urlParse).2.2.1 _ rfl "user" "secret" "acme" "widgets",
   ((empty_base_url_default urlParse).2.2.2.2.1 "http://bitbucket.example.com:7990/rest"
      (by decide) "user" "secret" "acme" "widgets").1 _ rfl,
   ((empty_base_url_default urlParse).2.2.2.2.1 "https://bit\tbucket"
      (by decide) "user" "secret" "acme" "widgets").2 _ rfl,
   (empty_base_url_default urlParse).2.1 "http://bitbucket.example.com:7990/rest" (by decide)⟩

/-- C9: when the provider call returns an error, `List` returns a nil list
and the error "error listing pull requests for OWNER/SLUG: " followed by the
provider error, whatever result came with it, and has issued exactly one
request. -/
theorem list_provider_error (b : BitbucketCloudService) (p : Provider) (response : GoValue)
    (err : String)
    (hans : p.answer p.served b.client ⟨b.owner, b.repositorySlug⟩ = (response, some err)) :
    b.List p = ((none, some ("error listing pull requests for " ++ b.owner ++ "/" ++
      b.repositorySlug ++ ": " ++ err)), { p with served := p.served + 1 }) :=
  list_of_error hans

/-- Witness of C9: the first request is refused and a second one would be
answered; `List` returns the wrapped error after one request. -/
theorem list_provider_error_witness :
    acmeWidgets.List (failingOnce "401 Unauthorized" (envelope [])) =
      ((none, some ("error listing pull requests for " ++ "acme" ++ "/" ++ "widgets" ++ ": " ++
        "401 Unauthorized")),
        { failingOnce "401 Unauthorized" (envelope []) with served := 0 + 1 }) :=
  list_provider_error acmeWidgets (failingOnce "401 Unauthorized" (envelope [])) .null
    "401 Unauthorized" rfl

theorem forall2_right {α β : Type} {R : α → β → Prop} {xs : List α} {ys : List β}
    (h : List.Forall₂ R xs ys) : ∀ y ∈ ys, ∃ x, R x y := by
  induction h with
  | nil => intro y hy; simp at hy
  | cons hr _ ih =>
    intro y hy
    rcases List.mem_cons.1 hy with hy | hy
    · subst hy; exact ⟨_, hr⟩
    · exact ih y hy

/-- C10 (amended): `List` consumes only `values[*].id`,
`values[*].source.branch.name` and `values[*].source.commit.hash` of entries
of the documented shape: for any two provider answers that are mappings whose
`values` sequences have the same length and, entry by entry, hold consumable
entries that agree on those three fields, `List` returns the same outcome,
whatever other keys the envelope and the entries carry. -/
theorem list_consumes_three_fields (b : BitbucketCloudService) (p1 p2 : Provider)
    (resp1 resp2 : List (String × GoValue)) (xs ys : List GoValue)
    (h1 : p1.answer p1.served b.client ⟨b.owner, b.repositorySlug⟩ = (.map resp1, none))
    (h2 : p2.answer p2.served b.client ⟨b.owner, b.repositorySlug⟩ = (.map resp2, none))
    (hv1 : resp1.lookup "values" = some (.slice xs))
    (hv2 : resp2.lookup "values" = some (.slice ys))
    (hagree : List.Forall₂ (fun a c => Consumable a ∧ Consumable c ∧ Agree a c) xs ys) :
    (b.List p1).1 = (b.List p2).1 := by
  have hc1 : ∀ e ∈ xs, Consumable e := fun e he => by
    obtain ⟨c, hc⟩ := forall2_left hagree e he
    exact hc.1
  have hc2 : ∀ e ∈ ys, Consumable e := fun e he => by
    obtain ⟨a, ha⟩ := forall2_right hagree e he
    exact ha.2.1
  have hag : List.Forall₂ Agree xs ys := hagree.imp fun _ _ h => h.2.2
  rw [list_of_consumable h1 hv1 hc1, list_of_consumable h2 hv2 hc2, entryRecords_agree hag]

/-- Witness of C10: a full page with paging keys and further entry keys, and
the bare envelope with the same three fields, give the same outcome. -/
theorem list_consumes_three_fields_witness :
    (acmeWidgets.List (answering fullPage)).1 =
      (acmeWidgets.List
        (answering (envelope [pullEntry (.float64 (.int 42)) "feature/x" "abc123"]))).1 :=
  list_consumes_three_fields acmeWidgets (answering fullPage)
    (answering (envelope [pullEntry (.float64 (.int 42)) "feature/x" "abc123"]))
    [("pagelen", .float64 (.int 10)), ("size", .float64 (.int 1)),
      ("page", .float64 (.int 1)), ("next", .string "https://api.bitbucket.org/2.0/next"),
      ("values", .slice [.map [("title", .string "Add x"), ("state", .string "OPEN"),
        ("id", .float64 (.int 42)),
        ("source", .map [("repository", .map [("full_name", .string "acme/widgets")]),
          ("commit", .map [("hash", .string "abc123"), ("type", .string "commit")]),
          ("branch", .map [("name", .string "feature/x")])])]])]
    [("values", .slice [pullEntry (.float64 (.int 42)) "feature/x" "abc123"])]
    _ _ rfl rfl rfl rfl
    (List.Forall₂.cons ⟨⟨by decide, by decide⟩, ⟨by decide, by decide⟩, rfl, rfl, rfl⟩
      List.Forall₂.nil)

/-- Counterexample to C10 as stated: three pairs of entries that agree on the
three fields and on which `List` returns different outcomes: a further key
`ID` holding a string, a `source` that is a number against an absent one, and
a further key holding a NaN. -/
theorem list_consumes_three_fields_counterexample :
    (Agree (pullEntry (.float64 (.int 42)) "feature/x" "abc123") aliasEntry ∧
      (acmeWidgets.List
        (answering (envelope [pullEntry (.float64 (.int 42)) "feature/x" "abc123"]))).1 =
        (some [⟨42, "feature/x", "abc123"⟩], none) ∧
      (acmeWidgets.List (answering (envelope [aliasEntry]))).1 =
        (none, some "Failed to convert json to type '[]BitbucketCloudPullRequest'")) ∧
    (Agree (.map []) (.map [("source", .float64 (.int 5))]) ∧
      (acmeWidgets.List (answering (envelope [.map []]))).1 = (some [⟨0, "", ""⟩], none) ∧
      (acmeWidgets.List (answering (envelope [.map [("source", .float64 (.int 5))]]))).1 =
        (none, some "Failed to convert json to type '[]BitbucketCloudPullRequest'")) ∧
    (Agree (pullEntry (.float64 (.int 42)) "feature/x" "abc123") nanEntry ∧
      (acmeWidgets.List (answering (envelope [nanEntry]))).1 =
        (none, some "Failed to convert response body to json")) :=
  ⟨⟨⟨rfl, rfl, rfl⟩, by decide, by decide⟩, ⟨⟨rfl, rfl, rfl⟩, by decide, by decide⟩,
    ⟨⟨rfl, rfl, rfl⟩, by decide⟩⟩

end BitbucketCloud
